import Mathlib

/-!
Verification of the discorder storage and ingestion core against its
natural-language specification.

The development shallowly embeds the JavaScript source:

* src/storage/db.js — the SQLite data model (messages, users, channels,
  guilds, import_cursors, the external-content FTS5 table messages_fts and
  its AFTER INSERT / AFTER DELETE triggers), the upsert helpers, the
  searchMessages and getContext queries and the import-cursor helpers.
* src/history/index.js — createRateLimiter, parallelMap and importChannel.

Conventions of the embedding:

* SQLite TEXT values are Lean String; SQL NULL is Option.none.  SQLite
  compares TEXT by memcmp and JavaScript compares strings by UTF-16 code
  units; for the ASCII data handled here both coincide with lexicographic
  comparison of the character list, embedded as jsLt / jsLe below
  (Lean's built-in String order does not reduce in the kernel, so the
  comparison is defined directly on the underlying character lists).
* Timestamps (created_at and friends) are the TEXT values the code stores;
  SQLite orders them by memcmp, i.e. by jsLe, with NULL ordered first in
  ASC order, and NULL never satisfying a comparison predicate.
* Each table is a list of rows in rowid (insertion) order.  The implicit
  SQLite integer rowid of the messages table is modelled explicitly
  because the FTS table is keyed by it.
* The JavaScript field-aliasing extraction (msg.author?.id ?? msg.author_id
  and similar) is abstracted away: the input records below hold exactly the
  parameter values bound into the SQL statements.
-/

/-- Lexicographic comparison of character lists; the common order of
JavaScript string comparison and SQLite memcmp on ASCII text. -/
def lexLtC : List Char → List Char → Bool
  | [], [] => false
  | [], _ :: _ => true
  | _ :: _, [] => false
  | a :: as, b :: bs => if a < b then true else if b < a then false else lexLtC as bs

/-- Strict string comparison as performed by the JavaScript > and <
operators (code-unit lexicographic). -/
def jsLt (a b : String) : Bool := lexLtC a.data b.data

/-- Non-strict counterpart of jsLt. -/
def jsLe (a b : String) : Bool := jsLt a b || a == b

/-- Numeric value of a decimal digit string: the chronological (snowflake)
ordering key of a Discord id.  Snowflake ids encode creation time in their
numeric value, so chronological comparison of ids is comparison of these
numbers. -/
def idNum (s : String) : Nat := s.data.foldl (fun n c => n * 10 + (c.toNat - 48)) 0

/-- SQL comparison a <= b on nullable TEXT: never true when either side is
NULL (three-valued logic collapses to row exclusion in a WHERE clause). -/
def sqlLeOpt (a b : Option String) : Bool :=
  match a, b with
  | some x, some y => jsLe x y
  | _, _ => false

/-- Ordering key used by ORDER BY created_at ASC: SQLite places NULL first
in ascending order. -/
def nullsFirstLe (a b : Option String) : Bool :=
  match a, b with
  | none, _ => true
  | some _, none => false
  | some x, some y => jsLe x y

/-- Ordering key used by ORDER BY created_at DESC: larger values first,
NULL last. -/
def nullsLastGe (a b : Option String) : Bool := nullsFirstLe b a

/-- Insertion step of the sort used to model ORDER BY. -/
def insLe {α : Type} (le : α → α → Bool) (x : α) : List α → List α
  | [] => [x]
  | y :: ys => if le x y then x :: y :: ys else y :: insLe le x ys

/-- Insertion sort used to model ORDER BY (any stable sort would do; the
claims only depend on the output being an ordered permutation). -/
def sortByLe {α : Type} (le : α → α → Bool) : List α → List α
  | [] => []
  | x :: xs => insLe le x (sortByLe le xs)

/-! ## Row types (schema of src/storage/db.js, migrate) -/

/-- Row of the messages table.  rowid is SQLite's implicit integer key,
assigned at insert and stable under UPDATE; messages_fts is keyed by it. -/
structure MsgRow where
  rowid : Nat
  id : String
  channel_id : String
  guild_id : Option String
  author_id : Option String
  content : String
  thread_id : Option String
  reference_id : Option String
  reply_count : Nat
  reactions : Option String
  attachments : Option String
  embeds : Option String
  raw : String
  created_at : Option String
  edited_at : Option String
  imported_at : String
  deriving Repr, DecidableEq

/-- Parameters bound by upsertMessage into its INSERT statement (after the
JavaScript alias-defaulting has produced the concrete values). -/
structure MsgInput where
  id : String
  channel_id : String
  guild_id : Option String
  author_id : Option String
  content : String
  thread_id : Option String
  reference_id : Option String
  reply_count : Nat
  reactions : Option String
  attachments : Option String
  embeds : Option String
  raw : String
  created_at : Option String
  edited_at : Option String
  deriving Repr, DecidableEq

/-- Row of the users table.  display_name has DEFAULT '' and every code
path of upsertUser binds a non-NULL string, so it is a plain String. -/
structure UserRow where
  id : String
  username : String
  display_name : String
  discriminator : String
  is_bot : Bool
  avatar : String
  updated_at : String
  deriving Repr, DecidableEq

/-- Parameters bound by upsertUser. -/
structure UserInput where
  id : String
  username : String
  display_name : String
  discriminator : String
  is_bot : Bool
  avatar : String
  deriving Repr, DecidableEq

/-- Row of the channels table (ctype stands for the SQL column named
type). -/
structure ChannelRow where
  id : String
  guild_id : Option String
  name : String
  ctype : Nat
  topic : String
  parent_id : String
  position : Nat
  updated_at : String
  deriving Repr, DecidableEq

/-- Row of the guilds table; only the columns read by the queries under
verification (id for joins, name for display) are carried. -/
structure GuildRow where
  id : String
  name : String
  deriving Repr, DecidableEq

/-- Row of the external-content FTS5 table messages_fts.  For an
external-content table the inverted index stores the token data supplied
at insertion; it is updated only by the messages_ai / messages_ad
triggers. -/
structure FtsRow where
  rowid : Nat
  content_text : String
  user_name : String
  channel_name : String
  deriving Repr, DecidableEq

/-- Row of the import_cursors table.  setImportCursor never writes
oldest_id, so only latest_id is carried. -/
structure CursorRow where
  channel_id : String
  latest_id : String
  updated_at : String
  deriving Repr, DecidableEq

/-- The database state: each table in rowid (insertion) order, plus the
next free messages rowid. -/
structure Db where
  nextRowid : Nat
  messages : List MsgRow
  users : List UserRow
  channels : List ChannelRow
  guilds : List GuildRow
  messagesFts : List FtsRow
  importCursors : List CursorRow
  deriving Repr, DecidableEq

/-- The empty database produced by migrate on a fresh file. -/
def Db.empty : Db := ⟨0, [], [], [], [], [], []⟩

/-! ## Trigger name resolution (messages_ai) -/

/-- COALESCE((SELECT display_name FROM users WHERE id = new.author_id),
(SELECT username FROM users WHERE id = new.author_id), '') — since the
display_name column is never NULL, the username branch only matters when
the user row is missing, in which case both subqueries are NULL and the
result is the empty string. -/
def triggerUserName (s : Db) (authorId : Option String) : String :=
  match authorId.bind (fun aid => s.users.find? (fun u => u.id == aid)) with
  | some u => u.display_name
  | none => ""

/-- COALESCE((SELECT name FROM channels WHERE id = new.channel_id), ''). -/
def triggerChannelName (s : Db) (channelId : String) : String :=
  match s.channels.find? (fun c => c.id == channelId) with
  | some c => c.name
  | none => ""

/-! ## Upsert helpers (src/storage/db.js) -/

/-- Field update applied by the ON CONFLICT(id) DO UPDATE clause of
upsertMessage: content, reply_count, reactions, attachments, embeds, raw
and edited_at are set from the excluded row; every other column (including
created_at, imported_at and the rowid) is left unchanged. -/
def updateMsgFields (r : MsgRow) (m : MsgInput) : MsgRow :=
  { r with
    content := m.content
    reply_count := m.reply_count
    reactions := m.reactions
    attachments := m.attachments
    embeds := m.embeds
    raw := m.raw
    edited_at := m.edited_at }

/-- upsertMessage(db, msg, channelId, guildId): INSERT ... ON CONFLICT(id)
DO UPDATE.  A fresh insert fires the messages_ai trigger, which adds the
messages_fts row with the content and the author/channel names resolved at
that moment; the conflict path runs an UPDATE, and since only AFTER INSERT
and AFTER DELETE triggers exist, the FTS table is not touched.  now stands
for datetime('now'), the imported_at default.  insertedRow is the row the
INSERT writes (imported_at takes its default). -/
def insertedRow (s : Db) (m : MsgInput) (now : String) : MsgRow :=
  { rowid := s.nextRowid
    id := m.id
    channel_id := m.channel_id
    guild_id := m.guild_id
    author_id := m.author_id
    content := m.content
    thread_id := m.thread_id
    reference_id := m.reference_id
    reply_count := m.reply_count
    reactions := m.reactions
    attachments := m.attachments
    embeds := m.embeds
    raw := m.raw
    created_at := m.created_at
    edited_at := m.edited_at
    imported_at := now }

/-- The messages_fts row added by the messages_ai AFTER INSERT trigger:
keyed by the fresh rowid, holding the inserted content and the author and
channel names resolved at this moment. -/
def insertedFts (s : Db) (m : MsgInput) : FtsRow :=
  { rowid := s.nextRowid
    content_text := m.content
    user_name := triggerUserName s m.author_id
    channel_name := triggerChannelName s m.channel_id }

def upsertMessage (s : Db) (m : MsgInput) (now : String) : Db :=
  match s.messages.find? (fun r => r.id == m.id) with
  | some _ =>
    { s with messages := s.messages.map (fun r => if r.id == m.id then updateMsgFields r m else r) }
  | none =>
    { s with
      nextRowid := s.nextRowid + 1
      messages := s.messages ++ [insertedRow s m now]
      messagesFts := s.messagesFts ++ [insertedFts s m] }

/-- upsertUser(db, user): INSERT ... ON CONFLICT(id) DO UPDATE SET every
field and updated_at = datetime('now'). -/
def upsertUser (s : Db) (u : UserInput) (now : String) : Db :=
  match s.users.find? (fun r => r.id == u.id) with
  | some _ =>
    { s with users := s.users.map (fun r =>
        if r.id == u.id then
          { r with
            username := u.username
            display_name := u.display_name
            discriminator := u.discriminator
            is_bot := u.is_bot
            avatar := u.avatar
            updated_at := now }
        else r) }
  | none =>
    let row : UserRow :=
      { id := u.id
        username := u.username
        display_name := u.display_name
        discriminator := u.discriminator
        is_bot := u.is_bot
        avatar := u.avatar
        updated_at := now }
    { s with users := s.users ++ [row] }

/-- upsertChannel(db, ch): INSERT ... ON CONFLICT(id) DO UPDATE SET every
field and updated_at. -/
def upsertChannel (s : Db) (c : ChannelRow) : Db :=
  match s.channels.find? (fun r => r.id == c.id) with
  | some _ =>
    { s with channels := s.channels.map (fun r => if r.id == c.id then c else r) }
  | none => { s with channels := s.channels ++ [c] }

/-! ## Import cursor helpers (src/storage/db.js) -/

/-- getImportCursor(db, channelId): SELECT latest_id FROM import_cursors
WHERE channel_id = ?, with the JavaScript ?? null giving none when the row
is missing. -/
def getImportCursor (s : Db) (channelId : String) : Option String :=
  (s.importCursors.find? (fun r => r.channel_id == channelId)).map (fun r => r.latest_id)

/-- setImportCursor(db, channelId, latestId): INSERT ... ON CONFLICT
(channel_id) DO UPDATE SET latest_id, updated_at. -/
def setImportCursor (s : Db) (channelId latestId : String) (now : String) : Db :=
  match s.importCursors.find? (fun r => r.channel_id == channelId) with
  | some _ =>
    { s with importCursors := s.importCursors.map (fun r =>
        if r.channel_id == channelId then { r with latest_id := latestId, updated_at := now } else r) }
  | none =>
    let row : CursorRow := { channel_id := channelId, latest_id := latestId, updated_at := now }
    { s with importCursors := s.importCursors ++ [row] }

/-! ## Full-text search (searchMessages, src/storage/db.js) -/

/-- Character class of the JavaScript regex [a-zA-Z0-9]. -/
def isQueryAlnum (c : Char) : Bool :=
  (('a' ≤ c && c ≤ 'z') || ('A' ≤ c && c ≤ 'Z') || ('0' ≤ c && c ≤ '9'))

/-- Character class of the JavaScript regex \s, restricted to the ASCII
whitespace occurring in the data under consideration. -/
def isQueryWs (c : Char) : Bool :=
  (c == ' ' || c == '\t' || c == '\n' || c == '\r')

/-- Split a character list at separator characters, dropping empty
fragments; acc accumulates the current fragment in reverse. -/
def splitDrop (isSep : Char → Bool) : List Char → List Char → List String
  | [], acc => if acc.isEmpty then [] else [String.mk acc.reverse]
  | c :: cs, acc =>
    if isSep c then
      if acc.isEmpty then splitDrop isSep cs []
      else String.mk acc.reverse :: splitDrop isSep cs []
    else splitDrop isSep cs (c :: acc)

/-- Tokenization performed by searchMessages on the query: replace every
character outside [a-zA-Z0-9\s] with a space, split on whitespace runs and
discard empty tokens.  (The source then wraps each token in double quotes
and joins with " OR "; that string is the FTS5 MATCH expression whose
disjunctive semantics ftsRowMatches interprets, and it is empty exactly
when this list is empty.) -/
def sanitizeQuery (q : String) : List String :=
  splitDrop isQueryWs (q.data.map (fun c => if isQueryAlnum c || isQueryWs c then c else ' ')) []

/-- Words of a text as indexed by the FTS5 unicode61 tokenizer: maximal
alphanumeric runs, case-folded.  The porter stemmer configured on the
table is abstracted away (it maps query and content tokens identically, and
no claim under verification depends on stem-equivalence of distinct
words). -/
def ftsWords (t : String) : List String :=
  splitDrop (fun c => !(isQueryAlnum c)) (t.data.map Char.toLower) []

/-- Whether one quoted query token matches an indexed text column. -/
def tokenMatches (tok text : String) : Bool :=
  (ftsWords text).contains (String.mk (tok.data.map Char.toLower))

/-- MATCH semantics of the OR-of-quoted-tokens expression built by
searchMessages: some token matches some indexed column of the row. -/
def ftsRowMatches (tokens : List String) (e : FtsRow) : Bool :=
  tokens.any (fun t =>
    tokenMatches t e.content_text || tokenMatches t e.user_name || tokenMatches t e.channel_name)

/-- Optional filters of searchMessages; none stands for an absent (falsy)
option, under which the corresponding AND clause is not added. -/
structure SearchFilters where
  limit : Nat := 25
  channelId : Option String := none
  guildId : Option String := none
  userId : Option String := none
  before : Option String := none
  after : Option String := none
  deriving Repr

/-- Result row of searchMessages (the projected SELECT columns; rank is
not carried — see searchMessages). -/
structure SearchHit where
  id : String
  channel_id : String
  guild_id : Option String
  author_id : Option String
  content : String
  thread_id : Option String
  reference_id : Option String
  reply_count : Nat
  reactions : Option String
  created_at : Option String
  user_display_name : Option String
  user_name : Option String
  channel_name : Option String
  guild_name : Option String
  deriving Repr, DecidableEq

/-- The WHERE clause filters of searchMessages that apply to the joined
messages row. -/
def hitPassesFilters (f : SearchFilters) (m : MsgRow) : Bool :=
  (match f.channelId with | some c => m.channel_id == c | none => true) &&
  (match f.guildId with | some g => m.guild_id == some g | none => true) &&
  (match f.userId with | some u => m.author_id == some u | none => true) &&
  (match f.before with | some b => sqlLeOpt m.created_at (some b) && !(m.created_at == some b) | none => true) &&
  (match f.after with | some a => sqlLeOpt (some a) m.created_at && !(m.created_at == some a) | none => true)

/-- searchMessages(db, query, filters): sanitize the query; an empty
sanitized query returns [] before touching the database.  Otherwise join
messages_fts rows matching the OR-of-tokens expression with their message
row (INNER JOIN on rowid) and LEFT JOIN the name tables, apply the filter
clauses and the LIMIT.  ORDER BY rank is abstracted as the index order of
the FTS table: bm25 relevance is outside the embedding and no claim under
verification depends on the ranking. -/
def searchMessages (s : Db) (query : String) (f : SearchFilters) : List SearchHit :=
  let tokens := sanitizeQuery query
  if tokens.isEmpty then []
  else
    ((s.messagesFts.filter (ftsRowMatches tokens)).filterMap (fun e =>
      match s.messages.find? (fun m => m.rowid == e.rowid) with
      | none => none
      | some m =>
        if hitPassesFilters f m then
          some { id := m.id
                 channel_id := m.channel_id
                 guild_id := m.guild_id
                 author_id := m.author_id
                 content := m.content
                 thread_id := m.thread_id
                 reference_id := m.reference_id
                 reply_count := m.reply_count
                 reactions := m.reactions
                 created_at := m.created_at
                 user_display_name := (m.author_id.bind (fun aid => s.users.find? (fun u => u.id == aid))).map (fun u => u.display_name)
                 user_name := (m.author_id.bind (fun aid => s.users.find? (fun u => u.id == aid))).map (fun u => u.username)
                 channel_name := (s.channels.find? (fun c => c.id == m.channel_id)).map (fun c => c.name)
                 guild_name := (match m.guild_id with
                   | some g => (s.guilds.find? (fun gr => gr.id == g)).map (fun gr => gr.name)
                   | none => none) }
        else none)).take f.limit

/-! ## Context window (getContext, src/storage/db.js) -/

/-- getContext(db, channelId, messageId, windowSize): look up the target's
created_at by message id; if absent return [].  Otherwise return the
channel's rows whose created_at lies BETWEEN the two boundary subqueries —
the created_at found at OFFSET floor(windowSize/2) walking away from the
target among rows at-or-before it (descending) and among rows at-or-after
it (ascending) — ordered by created_at ascending.  When a boundary
subquery yields no row its value is SQL NULL and the BETWEEN excludes
every row.  ctxLower is the lower boundary subquery: SELECT created_at ...
WHERE channel_id = ? AND created_at <= target ORDER BY created_at DESC
LIMIT 1 OFFSET half (the OFFSET is getElem? at half; a missing row or a
NULL created_at both give none via Option.join). -/
def ctxLower (s : Db) (channelId : String) (tts : Option String) (half : Nat) : Option String :=
  ((sortByLe nullsLastGe
      ((s.messages.filter (fun r => r.channel_id == channelId && sqlLeOpt r.created_at tts)).map
        (fun r => r.created_at)))[half]?).join

/-- Upper boundary subquery: SELECT created_at ... WHERE channel_id = ?
AND created_at >= target ORDER BY created_at ASC LIMIT 1 OFFSET half. -/
def ctxUpper (s : Db) (channelId : String) (tts : Option String) (half : Nat) : Option String :=
  ((sortByLe nullsFirstLe
      ((s.messages.filter (fun r => r.channel_id == channelId && sqlLeOpt tts r.created_at)).map
        (fun r => r.created_at)))[half]?).join

def getContext (s : Db) (channelId messageId : String) (windowSize : Nat) : List MsgRow :=
  let half := windowSize / 2
  match s.messages.find? (fun r => r.id == messageId) with
  | none => []
  | some target =>
    sortByLe (fun a b => nullsFirstLe a.created_at b.created_at)
      (s.messages.filter (fun r =>
        r.channel_id == channelId &&
        sqlLeOpt (ctxLower s channelId target.created_at half) r.created_at &&
        sqlLeOpt r.created_at (ctxUpper s channelId target.created_at half)))

/-! ## Channel backfill (importChannel, src/history/index.js) -/

/-- PAGE_SIZE = 100, the Discord maximum page size. -/
def PAGE_SIZE : Nat := 100

/-- Value of the code property on a JavaScript error: Discord API errors
carry numbers (50001 Missing Access, 50013 Missing Permissions), Node
network errors carry strings (ETIMEDOUT, ECONNRESET), anything else is
uncategorised. -/
inductive JsErrCode where
  | num (n : Nat)
  | str (s : String)
  | uncategorised
  deriving Repr, DecidableEq

/-- Options object passed to channel.messages.fetch. -/
structure FetchOpts where
  limit : Nat
  after : Option String := none
  before : Option String := none
  deriving Repr, DecidableEq

/-- One fetched message: the parameter values its upsert will bind, plus
its author object when present. -/
structure PageMsg where
  msg : MsgInput
  author : Option UserInput
  deriving Repr, DecidableEq

/-- Outcome of one importChannel invocation.  The completed constructor
carries, for use in the statements below, the final value of the latestId
accumulator, the newest-message id of each non-empty page in fetch order,
and the message count; the error constructors mirror the three catch
classes of the source and outOfFuel marks exhaustion of the explicit
recursion bound (the source loop has no such bound and relies on the
remote shrinking each before page). -/
inductive ImportStatus where
  | completed (latestId : Option String) (newestIds : List String) (msgCount : Nat)
  | skippedAccess
  | skippedTransient
  | skippedOther
  | outOfFuel
  deriving Repr, DecidableEq

/-- Classification performed by the catch blocks of importChannel: error
codes 50001 and 50013 mean missing access (the inner catch returns early,
and the outer catch repeats the test); ETIMEDOUT and ECONNRESET are the
transient network class; everything else is logged and skipped. -/
def classifyFetchErr (e : JsErrCode) : ImportStatus :=
  match e with
  | .num n => if n == 50001 || n == 50013 then .skippedAccess else .skippedOther
  | .str c => if c == "ETIMEDOUT" || c == "ECONNRESET" then .skippedTransient else .skippedOther
  | .uncategorised => .skippedOther

/-- The per-page transaction of importChannel: for each message of the
page, upsertMessage with the channel id and guild id arguments overriding
the record's own, then upsertUser for its author when present.  The
db.transaction wrapper provides atomicity, which the sequential pure fold
models directly.  pageInput is the record the upsert binds: the channel
id and guild id arguments override the fetched record's own values. -/
def pageInput (pm : PageMsg) (cid : String) (gid : Option String) : MsgInput :=
  { pm.msg with channel_id := cid, guild_id := gid }

def applyPageTxn (s : Db) (page : List PageMsg) (cid : String) (gid : Option String) (now : String) : Db :=
  page.foldl (fun acc pm =>
    let acc1 := upsertMessage acc (pageInput pm cid gid) now
    match pm.author with
    | some u => upsertUser acc1 u now
    | none => acc1) s

/-- Cursor write after the pagination loop: if (latestId)
setImportCursor(db, channel.id, latestId). -/
def finishImport (s : Db) (cid : String) (latestId : Option String)
    (newestIds : List String) (msgCount : Nat) (now : String) : Db × ImportStatus :=
  match latestId with
  | some l => (setImportCursor s cid l now, .completed (some l) newestIds msgCount)
  | none => (s, .completed none newestIds msgCount)

/-- Pagination loop of importChannel.  afterId is the cursor read before
the loop; latestId starts at afterId; the first fetch after an existing
cursor uses after, later fetches use before = the oldest id seen this run.
A fetch error is classified and ends the run with the state as already
committed (page transactions are atomic and complete).  An empty page
breaks out to the cursor write; a short page processes then stops; a full
page continues.  The fetch oracle takes the iteration index so that
failure at any chosen page is expressible.  pageOpts is the fetch options
object: the first fetch after an existing cursor uses after, later fetches
use before = the oldest id seen this run. -/
def pageOpts (afterId lastId : Option String) : FetchOpts :=
  if afterId.isSome && lastId.isNone then { limit := PAGE_SIZE, after := afterId }
  else if lastId.isSome then { limit := PAGE_SIZE, before := lastId }
  else { limit := PAGE_SIZE }

/-- Cursor accumulator update per page: if (!latestId || newest.id >
(latestId ?? '0')) latestId = newest.id — a JavaScript string comparison,
not a snowflake-numeric one. -/
def bumpLatest (latestId : Option String) (nid : String) : Option String :=
  match latestId with
  | none => some nid
  | some l => if jsLt l nid then some nid else some l

def importLoop (fetch : Nat → FetchOpts → Except JsErrCode (List PageMsg))
    (cid : String) (gid : Option String) (now : String) (afterId : Option String) :
    Nat → Nat → Db → Option String → Option String → Nat → List String → Db × ImportStatus
  | 0, _, s, _, _, _, _ => (s, .outOfFuel)
  | fuel + 1, iter, s, latestId, lastId, msgCount, newestIds =>
    match fetch iter (pageOpts afterId lastId) with
    | .error e => (s, classifyFetchErr e)
    | .ok [] => finishImport s cid latestId newestIds msgCount now
    | .ok (newest :: rest) =>
      if (newest :: rest).length == PAGE_SIZE then
        importLoop fetch cid gid now afterId fuel (iter + 1)
          (applyPageTxn s (newest :: rest) cid gid now)
          (bumpLatest latestId newest.msg.id)
          (some ((rest.getLastD newest).msg.id))
          (msgCount + (newest :: rest).length)
          (newestIds ++ [newest.msg.id])
      else
        finishImport (applyPageTxn s (newest :: rest) cid gid now) cid
          (bumpLatest latestId newest.msg.id)
          (newestIds ++ [newest.msg.id])
          (msgCount + (newest :: rest).length) now

/-- importChannel(client, db, channel, guildId): read the cursor, run the
pagination loop (latestId initialised to the cursor), classify and contain
every fetch error, and finally advance the cursor.  The function is total:
no error value escapes to the caller. -/
def importChannel (fetch : Nat → FetchOpts → Except JsErrCode (List PageMsg))
    (s : Db) (cid : String) (gid : Option String) (now : String) (fuel : Nat) : Db × ImportStatus :=
  let afterId := getImportCursor s cid
  importLoop fetch cid gid now afterId fuel 0 s afterId none 0 []

/-- Guild-level fan-out over channels (the parallelMap call site of
importHistory, with the database effects serialised as the storage
engine's transaction discipline guarantees): every channel is imported and
its status collected, regardless of how sibling imports ended. -/
def importChannels (fetch : String → Nat → FetchOpts → Except JsErrCode (List PageMsg))
    (s : Db) (cids : List String) (gid : Option String) (now : String) (fuel : Nat) :
    Db × List ImportStatus :=
  cids.foldl (fun (acc : Db × List ImportStatus) cid =>
    let r := importChannel (fetch cid) acc.1 cid gid now fuel
    (r.1, acc.2 ++ [r.2])) (s, [])

/-- The external message source of spec section 6: the channel's messages
newest-first in snowflake (numeric id) order.  fetchMessagePage with after
returns the page of messages immediately following the given id (still
newest-first); with before, the newest messages older than the given id;
with neither, the newest page. -/
def discordFetch (remote : List PageMsg) (opts : FetchOpts) : Except JsErrCode (List PageMsg) :=
  match opts.after with
  | some a => .ok (((remote.filter (fun m => idNum a < idNum m.msg.id)).reverse.take opts.limit).reverse)
  | none =>
    match opts.before with
    | some b => .ok ((remote.filter (fun m => idNum m.msg.id < idNum b)).take opts.limit)
    | none => .ok (remote.take opts.limit)

/-! ## Rate limiter (createRateLimiter, src/history/index.js)

The closure holds a single watermark, next.  A caller entering acquire
reads Date.now() and, when it is before the watermark, awaits
sleep(next - now); the await is the only yield point.  After resuming (or
immediately, when no sleep was needed) it executes
next = Math.max(Date.now(), next) + intervalMs and returns.  The embedding
idealises timers: a sleeper resumes exactly at the watermark value it read
at entry, and Date.now() at that moment equals it. -/

/-- Time at which a caller entering acquire at time now, with watermark
next, resumes and is granted: immediately when now is not before the
watermark, else at the watermark read at entry. -/
def acquireGrantTime (next now : Nat) : Nat := max now next

/-- Watermark written when the caller resumes at time wake, with the
watermark then holding next (possibly advanced by other callers while this
one slept): Math.max(Date.now(), next) + intervalMs. -/
def acquireExitNext (next wake interval : Nat) : Nat := max wake next + interval

/-- Sequential acquisitions: each call begins only after the previous one
returned.  Returns the grant times of the calls entered at the given
times. -/
def seqAcquires (interval : Nat) : Nat → List Nat → List Nat
  | _, [] => []
  | next, t :: ts =>
    let g := acquireGrantTime next t
    g :: seqAcquires interval (acquireExitNext next g interval) ts

/-! ## Bounded task runner (parallelMap, src/history/index.js)

parallelMap spawns Math.min(concurrency, items.length) copies of an async
worker; each worker atomically claims the next index (the read and
post-increment of idx happen inside one synchronous segment of the event
loop), awaits fn on the claimed item — the only point where the item is in
flight — stores the result at the claimed index, and loops until idx
reaches the item count.  The transition system below has one start step
(claim an index) and one finish step (the awaited unit of work completes
and its result is stored); interleaving of workers is arbitrary. -/

/-- Scheduler state of parallelMap: the shared idx counter, one slot per
worker (some i when the worker is awaiting the unit of work on item i),
and the results array (none where not yet assigned). -/
structure PMState (β : Type) where
  idx : Nat
  running : List (Option Nat)
  results : List (Option β)
  deriving Repr, DecidableEq

/-- Initial state: idx 0, min(concurrency, N) idle workers, no results.
The length of the results list is fixed at N here; the JavaScript array
grows to exactly that length as indices are assigned. -/
def pmInit (β : Type) (n c : Nat) : PMState β :=
  ⟨0, List.replicate (min c n) none, List.replicate n none⟩

/-- One scheduler transition of parallelMap: an idle worker claims the
next index while idx is below N, or a running worker's awaited unit of
work f completes and the result is stored at the claimed index. -/
inductive PMStep (n : Nat) (f : Nat → β) : PMState β → PMState β → Prop
  | start (s : PMState β) (w : Nat) (hw : s.running[w]? = some none) (hidx : s.idx < n) :
      PMStep n f s ⟨s.idx + 1, s.running.set w (some s.idx), s.results⟩
  | finish (s : PMState β) (w i : Nat) (hw : s.running[w]? = some (some i)) :
      PMStep n f s ⟨s.idx, s.running.set w none, s.results.set i (some (f i))⟩

/-- Reachability of a parallelMap scheduler state. -/
def PMReach (n c : Nat) (f : Nat → β) (s : PMState β) : Prop :=
  Relation.ReflTransGen (PMStep n f) (pmInit β n c) s

/-- Terminal scheduler state: the idx counter has exhausted the items and
every worker has left its loop (Promise.all resolves). -/
def PMDone (n : Nat) (s : PMState β) : Prop :=
  n ≤ s.idx ∧ ∀ o ∈ s.running, o = none

instance (n : Nat) (s : PMState β) : Decidable (PMDone n s) := by
  unfold PMDone; infer_instance

/-- Number of units of work in flight: workers currently awaiting fn. -/
def pmInFlight (s : PMState β) : Nat := (s.running.filter Option.isSome).length

/-! ## General helper lemmas -/

/-- find? over an in-place keyed update: updating every row satisfying p
(with p preserved by the update) relocates nothing, so the first match is
the updated first match. -/
theorem find?_map_if {α : Type} (p : α → Bool) (f : α → α)
    (hf : ∀ a, p a = true → p (f a) = true) :
    ∀ l : List α, (l.map (fun a => if p a then f a else a)).find? p = (l.find? p).map f := by
  intro l
  induction l with
  | nil => simp
  | cons a l ih =>
    by_cases hp : p a = true
    · simp [hp, List.find?_cons_of_pos, hf a hp]
    · have hp' : p a = false := by simpa using hp
      simp [hp', List.find?_cons_of_neg, ih]

/-- Updating rows of a keyed table is the identity when every row
satisfying the key predicate is already up to date. -/
theorem map_if_eq_self {α : Type} (p : α → Bool) (f : α → α) (l : List α)
    (h : ∀ a ∈ l, p a = true → f a = a) :
    l.map (fun a => if p a then f a else a) = l := by
  induction l with
  | nil => rfl
  | cons a l ih =>
    have ha : (if p a then f a else a) = a := by
      by_cases hp : p a = true
      · simp [hp, h a (by simp)]
      · simp [hp]
    simp only [List.map_cons, ha, ih (fun a ha hp => h a (by simp [ha]) hp)]

/-! ## Demonstration fixtures shared by the concrete evaluations below -/

/-- A stored author. -/
def demoUser : UserInput :=
  { id := "u1", username := "alice", display_name := "Alice Dev",
    discriminator := "0", is_bot := false, avatar := "" }

/-- A stored channel. -/
def demoChannel : ChannelRow :=
  { id := "c1", guild_id := some "g1", name := "general", ctype := 0,
    topic := "", parent_id := "", position := 0, updated_at := "t0" }

/-- Message input fixture for channel c1 by user u1. -/
def mkMsg (mid content created : String) : MsgInput :=
  { id := mid, channel_id := "c1", guild_id := some "g1", author_id := some "u1",
    content := content, thread_id := none, reference_id := none, reply_count := 0,
    reactions := none, attachments := none, embeds := none, raw := "",
    created_at := some created, edited_at := none }

/-- Database holding the demo user and channel. -/
def demoBase : Db := upsertChannel (upsertUser Db.empty demoUser "t0") demoChannel

/-! ## Claim C6 — upsert field refresh without duplication -/

/-- C6: for every message id already stored, re-upserting a record with
that id rewrites exactly the mutable columns (content, reply_count,
reactions, attachments, embeds, raw, edited_at) of the stored row — the
record-update form of the conclusion leaves rowid, channel_id, guild_id,
author_id, thread_id, reference_id, created_at and imported_at untouched —
and the row count is unchanged, so no second row for the id is created and
created_at is preserved. -/
theorem c6_upsert_refresh (s : Db) (m : MsgInput) (now : String) (r : MsgRow)
    (h : s.messages.find? (fun x => x.id == m.id) = some r) :
    (upsertMessage s m now).messages.length = s.messages.length ∧
    (upsertMessage s m now).messages.find? (fun x => x.id == m.id) =
      some { r with
        content := m.content
        reply_count := m.reply_count
        reactions := m.reactions
        attachments := m.attachments
        embeds := m.embeds
        raw := m.raw
        edited_at := m.edited_at } := by
  have hup : upsertMessage s m now =
      { s with messages := s.messages.map (fun x => if x.id == m.id then updateMsgFields x m else x) } := by
    unfold upsertMessage
    rw [h]
  constructor
  · rw [hup]; simp
  · rw [hup]
    have := find?_map_if (fun x : MsgRow => x.id == m.id) (fun x => updateMsgFields x m)
      (fun a ha => ha) s.messages
    simp only [this, h, Option.map_some]
    rfl

/-- Witness for C6: re-upserting the demo message with new content, a new
edited_at and a reply count leaves created_at (and the rest of the frame)
intact while refreshing the mutable fields. -/
theorem c6_upsert_refresh_witness :
    ((upsertMessage demoBase (mkMsg "m1" "first draft" "2024-01-01T10:00:00") "t1").messages.find?
        (fun x => x.id == ("m1" : String))).isSome = true ∧
    (upsertMessage
        (upsertMessage demoBase (mkMsg "m1" "first draft" "2024-01-01T10:00:00") "t1")
        { mkMsg "m1" "second draft" "2024-01-01T10:00:00" with
            edited_at := some "2024-01-02T09:00:00", reply_count := 3 } "t2").messages.map
      (fun r => (r.id, r.content, r.edited_at, r.reply_count, r.created_at, r.imported_at)) =
      [("m1", "second draft", some "2024-01-02T09:00:00", 3, some "2024-01-01T10:00:00", "t1")] := by
  constructor
  · decide
  · have h := c6_upsert_refresh
      (upsertMessage demoBase (mkMsg "m1" "first draft" "2024-01-01T10:00:00") "t1")
      { mkMsg "m1" "second draft" "2024-01-01T10:00:00" with
          edited_at := some "2024-01-02T09:00:00", reply_count := 3 } "t2"
      ((upsertMessage demoBase (mkMsg "m1" "first draft" "2024-01-01T10:00:00") "t1").messages.getLast
        (by decide))
      (by decide)
    decide

/-! ## Claim C1 — search index maintenance -/

/-- Database after inserting the demo message with its original content. -/
def c1dbInserted : Db :=
  upsertMessage demoBase (mkMsg "m1" "alpha deploy finished" "2024-01-01T10:00:00") "t1"

/-- Database after re-upserting the same message id with changed content
(the edit path of the listener and of a re-import). -/
def c1dbEdited : Db :=
  upsertMessage c1dbInserted
    { mkMsg "m1" "beta rollback started" "2024-01-01T10:00:00" with
        edited_at := some "2024-01-02T09:00:00" } "t2"

/-- Counterexample to C1: after re-upserting message m1 with content
changed from "alpha deploy finished" to "beta rollback started", the
messages row holds the new content, yet the search index still holds the
insert-time text — searching for the new content finds nothing and
searching for the old content still returns the message.  The ON CONFLICT
DO UPDATE path runs an UPDATE, and the schema defines only AFTER INSERT
and AFTER DELETE triggers, so no index maintenance runs on edit. -/
theorem c1_fts_counterexample :
    (c1dbEdited.messages.map (fun r => r.content) = ["beta rollback started"]) ∧
    (c1dbEdited.messagesFts.map (fun e => e.content_text) = ["alpha deploy finished"]) ∧
    (searchMessages c1dbEdited "rollback" {} = []) ∧
    ((searchMessages c1dbEdited "alpha" {}).map (fun h => h.id) = ["m1"]) := by
  refine ⟨by decide, by decide, by decide, by decide⟩

/-- C1 as amended: the index is synchronized with the messages table at
insertion only.  Upserting a fresh id appends exactly one index row keyed
by the new row's rowid, holding the message content and the author and
channel names as resolved at that moment; re-upserting an existing id
rewrites the stored row's content but leaves the search index entirely
unchanged, so edits are not reflected in the index (the old content stays
findable, the new content does not become findable).  The AFTER DELETE
trigger is vacuous in this core: no code path deletes message rows. -/
theorem c1_fts_insert_only_sync (s : Db) (m : MsgInput) (now : String) :
    (s.messages.find? (fun r => r.id == m.id) = none →
      (upsertMessage s m now).messagesFts = s.messagesFts ++ [insertedFts s m]) ∧
    (∀ r, s.messages.find? (fun r => r.id == m.id) = some r →
      (upsertMessage s m now).messagesFts = s.messagesFts ∧
      ((upsertMessage s m now).messages.find? (fun x => x.id == m.id)).map (fun x => x.content) =
        some m.content) := by
  constructor
  · intro hnone
    unfold upsertMessage
    rw [hnone]
  · intro r hsome
    have hup : upsertMessage s m now =
        { s with messages := s.messages.map (fun x => if x.id == m.id then updateMsgFields x m else x) } := by
      unfold upsertMessage
      rw [hsome]
    refine ⟨by rw [hup], ?_⟩
    rw [hup]
    have := find?_map_if (fun x : MsgRow => x.id == m.id) (fun x => updateMsgFields x m)
      (fun a ha => ha) s.messages
    simp only [this, hsome, Option.map_some]
    rfl

/-- Witness for C1's amended theorem: the insert branch appends the index
row for the demo message with the names resolved from the stored user and
channel, and the update branch leaves the index row list untouched. -/
theorem c1_fts_insert_only_sync_witness :
    (demoBase.messages.find? (fun r => r.id == ("m1" : String)) = none ∧
      c1dbInserted.messagesFts = demoBase.messagesFts ++
        [insertedFts demoBase (mkMsg "m1" "alpha deploy finished" "2024-01-01T10:00:00")]) ∧
    (c1dbInserted.messages.find? (fun r => r.id == ("m1" : String)) =
        some (c1dbInserted.messages.getLast (by decide)) ∧
      c1dbEdited.messagesFts = c1dbInserted.messagesFts ∧
      (c1dbEdited.messages.find? (fun x => x.id == ("m1" : String))).map (fun x => x.content) =
        some "beta rollback started") := by
  constructor
  · exact ⟨by decide,
      (c1_fts_insert_only_sync demoBase (mkMsg "m1" "alpha deploy finished" "2024-01-01T10:00:00") "t1").1
        (by decide)⟩
  · refine ⟨by decide, ?_, ?_⟩
    · exact ((c1_fts_insert_only_sync c1dbInserted
        { mkMsg "m1" "beta rollback started" "2024-01-01T10:00:00" with
            edited_at := some "2024-01-02T09:00:00" } "t2").2
        (c1dbInserted.messages.getLast (by decide)) (by decide)).1
    · exact ((c1_fts_insert_only_sync c1dbInserted
        { mkMsg "m1" "beta rollback started" "2024-01-01T10:00:00" with
            edited_at := some "2024-01-02T09:00:00" } "t2").2
        (c1dbInserted.messages.getLast (by decide)) (by decide)).2

/-! ## Claim C3 — idempotence of re-applying a page -/

/-- A message input is already up to date in a messages table: some row
carries its id, and every row carrying its id already holds exactly the
field values the ON CONFLICT update would write. -/
def msgUpToDate (ms : List MsgRow) (m : MsgInput) : Prop :=
  (∃ r ∈ ms, r.id = m.id) ∧ ∀ r ∈ ms, r.id = m.id → updateMsgFields r m = r

/-- Re-upserting an up-to-date message is the identity on the whole
database state: the conflict path fires (no insert, no trigger) and the
UPDATE writes back the values already stored. -/
theorem upsertMessage_eq_self (s : Db) (m : MsgInput) (now : String)
    (h : msgUpToDate s.messages m) : upsertMessage s m now = s := by
  obtain ⟨⟨r, hr, hid⟩, hall⟩ := h
  have hsome : (s.messages.find? (fun x => x.id == m.id)).isSome := by
    rw [List.find?_isSome]
    exact ⟨r, hr, by simp [hid]⟩
  cases hfs : s.messages.find? (fun x => x.id == m.id) with
  | none => rw [hfs] at hsome; simp at hsome
  | some r0 =>
    unfold upsertMessage
    rw [hfs]
    have hmap : s.messages.map (fun x => if x.id == m.id then updateMsgFields x m else x) = s.messages :=
      map_if_eq_self _ _ _ (fun a ha hpa => hall a ha (by simpa using hpa))
    rw [hmap]

/-- upsertUser touches only the users table. -/
theorem upsertUser_frame (s : Db) (u : UserInput) (now : String) :
    (upsertUser s u now).messages = s.messages ∧
    (upsertUser s u now).messagesFts = s.messagesFts ∧
    (upsertUser s u now).importCursors = s.importCursors ∧
    (upsertUser s u now).nextRowid = s.nextRowid := by
  unfold upsertUser
  cases hf : s.users.find? (fun r => r.id == u.id) <;> simp

/-- Upserting a message makes it up to date. -/
theorem upsertMessage_establishes (s : Db) (m : MsgInput) (now : String) :
    msgUpToDate ((upsertMessage s m now).messages) m := by
  cases hfs : s.messages.find? (fun x => x.id == m.id) with
  | some r0 =>
    have hup : (upsertMessage s m now).messages =
        s.messages.map (fun x => if x.id == m.id then updateMsgFields x m else x) := by
      unfold upsertMessage; rw [hfs]
    have hid0 : (r0.id == m.id) = true := by
      have := List.find?_some hfs
      simpa using this
    have hideq : r0.id = m.id := by simpa using hid0
    constructor
    · refine ⟨updateMsgFields r0 m, ?_, hideq⟩
      rw [hup]
      have hmem : (fun x : MsgRow => if x.id == m.id then updateMsgFields x m else x) r0 ∈
          s.messages.map (fun x => if x.id == m.id then updateMsgFields x m else x) :=
        List.mem_map_of_mem _ (List.mem_of_find?_eq_some hfs)
      simpa [hid0] using hmem
    · intro r' hr' hid'
      rw [hup] at hr'
      obtain ⟨a, ha, rfl⟩ := List.mem_map.mp hr'
      by_cases hpa : (a.id == m.id) = true
      · simp only [hpa, if_true]
        unfold updateMsgFields
        rfl
      · rw [Bool.not_eq_true] at hpa
        simp only [hpa, Bool.false_eq_true, if_false] at hid' ⊢
        exact absurd (by simp [hid'] : (a.id == m.id) = true) (by simp [hpa])
  | none =>
    have hup : (upsertMessage s m now).messages = s.messages ++ [insertedRow s m now] := by
      unfold upsertMessage; rw [hfs]
    rw [hup]
    constructor
    · exact ⟨insertedRow s m now, List.mem_append_right _ (by simp), rfl⟩
    · intro r' hr' hid'
      rcases List.mem_append.mp hr' with hl | hrr
      · have := List.find?_eq_none.mp hfs r' hl
        exact absurd (by simp [hid']) this
      · simp only [List.mem_singleton] at hrr
        subst hrr
        unfold updateMsgFields insertedRow
        rfl

/-- Upserting a different id preserves up-to-dateness. -/
theorem upsertMessage_preserves (s : Db) (m m2 : MsgInput) (now : String)
    (h : msgUpToDate s.messages m) (hne : m2.id ≠ m.id) :
    msgUpToDate ((upsertMessage s m2 now).messages) m := by
  obtain ⟨⟨r, hr, hid⟩, hall⟩ := h
  cases hfs : s.messages.find? (fun x => x.id == m2.id) with
  | some r0 =>
    have hup : (upsertMessage s m2 now).messages =
        s.messages.map (fun x => if x.id == m2.id then updateMsgFields x m2 else x) := by
      unfold upsertMessage; rw [hfs]
    rw [hup]
    constructor
    · have hrne : (r.id == m2.id) = false := by
        rw [hid]
        exact beq_eq_false_iff_ne.mpr (fun hc => hne hc.symm)
      refine ⟨r, ?_, hid⟩
      have hmem : (fun x : MsgRow => if x.id == m2.id then updateMsgFields x m2 else x) r ∈
          s.messages.map (fun x => if x.id == m2.id then updateMsgFields x m2 else x) :=
        List.mem_map_of_mem _ hr
      simpa [hrne] using hmem
    · intro r' hr' hid'
      obtain ⟨a, ha, rfl⟩ := List.mem_map.mp hr'
      by_cases hpa : (a.id == m2.id) = true
      · simp only [hpa, if_true] at hid' ⊢
        exfalso
        have haid : a.id = m2.id := by simpa using hpa
        have : (updateMsgFields a m2).id = a.id := rfl
        exact hne (by rw [← hid', this, haid])
      · rw [Bool.not_eq_true] at hpa
        simp only [hpa, Bool.false_eq_true, if_false] at hid' ⊢
        exact hall a ha hid'
  | none =>
    have hup : (upsertMessage s m2 now).messages = s.messages ++ [insertedRow s m2 now] := by
      unfold upsertMessage; rw [hfs]
    rw [hup]
    constructor
    · exact ⟨r, List.mem_append_left _ hr, hid⟩
    · intro r' hr' hid'
      rcases List.mem_append.mp hr' with hl | hrr
      · exact hall r' hl hid'
      · simp only [List.mem_singleton] at hrr
        subst hrr
        exact absurd hid' (by simp [insertedRow]; exact fun hc => hne hc)

/-- One fold step of applyPageTxn. -/
theorem applyPageTxn_cons (s : Db) (pm : PageMsg) (rest : List PageMsg)
    (cid : String) (gid : Option String) (now : String) :
    applyPageTxn s (pm :: rest) cid gid now =
      applyPageTxn
        (match pm.author with
         | some u => upsertUser (upsertMessage s (pageInput pm cid gid) now) u now
         | none => upsertMessage s (pageInput pm cid gid) now) rest cid gid now := by
  unfold applyPageTxn
  rw [List.foldl_cons]

/-- The author upsert inside a page step does not disturb the messages
table, so up-to-dateness survives a whole page of other-id upserts. -/
theorem applyPageTxn_preserves (page : List PageMsg) (s : Db) (m : MsgInput)
    (cid : String) (gid : Option String) (now : String)
    (h : msgUpToDate s.messages m) (hne : ∀ pm ∈ page, pm.msg.id ≠ m.id) :
    msgUpToDate ((applyPageTxn s page cid gid now).messages) m := by
  induction page generalizing s with
  | nil => exact h
  | cons pm rest ih =>
    rw [applyPageTxn_cons]
    have h1 : msgUpToDate ((upsertMessage s (pageInput pm cid gid) now).messages) m :=
      upsertMessage_preserves s m (pageInput pm cid gid) now h (hne pm (by simp))
    have h2 : msgUpToDate
        ((match pm.author with
          | some u => upsertUser (upsertMessage s (pageInput pm cid gid) now) u now
          | none => upsertMessage s (pageInput pm cid gid) now).messages) m := by
      cases pm.author with
      | some u => rw [(upsertUser_frame (upsertMessage s (pageInput pm cid gid) now) u now).1]; exact h1
      | none => exact h1
    exact ih _ h2 (fun q hq => hne q (by simp [hq]))

/-- After applying a page whose message ids are distinct, every message of
the page is up to date. -/
theorem applyPageTxn_establishes (page : List PageMsg) (s : Db)
    (cid : String) (gid : Option String) (now : String)
    (hnodup : (page.map (fun pm => pm.msg.id)).Nodup) :
    ∀ pm ∈ page, msgUpToDate ((applyPageTxn s page cid gid now).messages) (pageInput pm cid gid) := by
  induction page generalizing s with
  | nil => intro pm h; exact absurd h (by simp)
  | cons pm0 rest ih =>
    intro pm hpm
    rw [List.map_cons, List.nodup_cons] at hnodup
    rw [applyPageTxn_cons]
    rcases List.mem_cons.mp hpm with rfl | hrest
    · have h1 : msgUpToDate ((upsertMessage s (pageInput pm cid gid) now).messages)
          (pageInput pm cid gid) := upsertMessage_establishes _ _ _
      have h2 : msgUpToDate
          ((match pm.author with
            | some u => upsertUser (upsertMessage s (pageInput pm cid gid) now) u now
            | none => upsertMessage s (pageInput pm cid gid) now).messages)
          (pageInput pm cid gid) := by
        cases pm.author with
        | some u => rw [(upsertUser_frame (upsertMessage s (pageInput pm cid gid) now) u now).1]; exact h1
        | none => exact h1
      refine applyPageTxn_preserves rest _ _ cid gid now h2 ?_
      intro q hq
      show q.msg.id ≠ (pageInput pm cid gid).id
      have : (pageInput pm cid gid).id = pm.msg.id := rfl
      rw [this]
      exact fun hc => hnodup.1 (by rw [← hc]; exact List.mem_map_of_mem _ hq)
    · exact ih _ hnodup.2 pm hrest

/-- Re-applying a page of up-to-date messages leaves the messages table
and the search index untouched (only the authors' updated_at moves). -/
theorem applyPageTxn_id_on (page : List PageMsg) (acc : Db) (ms : List MsgRow)
    (cid : String) (gid : Option String) (now : String)
    (hacc : acc.messages = ms)
    (h : ∀ pm ∈ page, msgUpToDate ms (pageInput pm cid gid)) :
    (applyPageTxn acc page cid gid now).messages = ms ∧
    (applyPageTxn acc page cid gid now).messagesFts = acc.messagesFts := by
  induction page generalizing acc with
  | nil => exact ⟨hacc, rfl⟩
  | cons pm rest ih =>
    rw [applyPageTxn_cons]
    have hid : upsertMessage acc (pageInput pm cid gid) now = acc :=
      upsertMessage_eq_self acc _ now (by rw [hacc]; exact h pm (by simp))
    cases hau : pm.author with
    | none =>
      rw [hid]
      exact ih acc hacc (fun q hq => h q (by simp [hq]))
    | some u =>
      rw [hid]
      have hf := upsertUser_frame acc u now
      have := ih (upsertUser acc u now) (by rw [hf.1, hacc]) (fun q hq => h q (by simp [hq]))
      exact ⟨this.1, by rw [this.2, hf.2.1]⟩

/-- C3: ingesting the same fixed page twice is idempotent.  Applying a
page (each page is one transaction of message upserts and author upserts)
a second time leaves the messages table and the messages_fts table exactly
equal to their state after the first application — in particular the
message row count, every stored content and the search-index row count are
unchanged.  The page's message ids are pairwise distinct, as the ids of a
fetched Discord page are. -/
theorem c3_ingest_idempotent (s : Db) (page : List PageMsg) (cid : String) (gid : Option String)
    (now1 now2 : String) (hnodup : (page.map (fun pm => pm.msg.id)).Nodup) :
    (applyPageTxn (applyPageTxn s page cid gid now1) page cid gid now2).messages =
      (applyPageTxn s page cid gid now1).messages ∧
    (applyPageTxn (applyPageTxn s page cid gid now1) page cid gid now2).messagesFts =
      (applyPageTxn s page cid gid now1).messagesFts := by
  exact applyPageTxn_id_on page (applyPageTxn s page cid gid now1)
    (applyPageTxn s page cid gid now1).messages cid gid now2 rfl
    (applyPageTxn_establishes page s cid gid now1 hnodup)

/-- A two-message demo page with authors. -/
def c3page : List PageMsg :=
  [{ msg := mkMsg "m1" "first message" "2024-01-01T10:00:00", author := some demoUser },
   { msg := mkMsg "m2" "second message" "2024-01-01T10:01:00", author := some demoUser }]

/-- Witness for C3: re-applying the demo page leaves messages and index
identical; the page's ids are distinct. -/
theorem c3_ingest_idempotent_witness :
    (c3page.map (fun pm => pm.msg.id)).Nodup ∧
    ((applyPageTxn (applyPageTxn demoBase c3page "c1" (some "g1") "t1") c3page "c1" (some "g1") "t2").messages =
        (applyPageTxn demoBase c3page "c1" (some "g1") "t1").messages ∧
      (applyPageTxn (applyPageTxn demoBase c3page "c1" (some "g1") "t1") c3page "c1" (some "g1") "t2").messagesFts =
        (applyPageTxn demoBase c3page "c1" (some "g1") "t1").messagesFts) :=
  ⟨by decide, c3_ingest_idempotent demoBase c3page "c1" (some "g1") "t1" "t2" (by decide)⟩

/-! ## Claim C10 — empty context when a boundary subquery has no row -/

/-- Inserting into a list lengthens it by one. -/
theorem length_insLe {α : Type} (le : α → α → Bool) (x : α) (l : List α) :
    (insLe le x l).length = l.length + 1 := by
  induction l with
  | nil => rfl
  | cons y ys ih =>
    unfold insLe
    by_cases h : le x y = true <;> simp [h, ih]

/-- Sorting preserves length. -/
theorem length_sortByLe {α : Type} (le : α → α → Bool) (l : List α) :
    (sortByLe le l).length = l.length := by
  induction l with
  | nil => rfl
  | cons x xs ih => unfold sortByLe; rw [length_insLe, ih]; rfl

/-- SQL NULL is below nothing. -/
theorem sqlLeOpt_none_left (b : Option String) : sqlLeOpt none b = false := by
  cases b <;> rfl

/-- Nothing is below SQL NULL. -/
theorem sqlLeOpt_none_right (a : Option String) : sqlLeOpt a none = false := by
  cases a <;> rfl

/-- The context query after a successful target lookup. -/
theorem getContext_of_found (s : Db) (channelId messageId : String) (windowSize : Nat)
    (tr : MsgRow) (hfind : s.messages.find? (fun r => r.id == messageId) = some tr) :
    getContext s channelId messageId windowSize =
      sortByLe (fun a b => nullsFirstLe a.created_at b.created_at)
        (s.messages.filter (fun r =>
          r.channel_id == channelId &&
          sqlLeOpt (ctxLower s channelId tr.created_at (windowSize / 2)) r.created_at &&
          sqlLeOpt r.created_at (ctxUpper s channelId tr.created_at (windowSize / 2)))) := by
  unfold getContext
  rw [hfind]

/-- Shared boundary analysis: when one side of the target holds at most
floor(windowSize/2) rows, the boundary subquery on that side yields NULL
and the context is empty. -/
theorem getContext_empty_of_side_short (s : Db) (c mid : String) (w : Nat) (tr : MsgRow)
    (hfind : s.messages.find? (fun r => r.id == mid) = some tr)
    (hcond :
      (s.messages.filter (fun r => r.channel_id == c && sqlLeOpt r.created_at tr.created_at)).length ≤ w / 2 ∨
      (s.messages.filter (fun r => r.channel_id == c && sqlLeOpt tr.created_at r.created_at)).length ≤ w / 2) :
    getContext s c mid w = [] := by
  rw [getContext_of_found s c mid w tr hfind]
  rcases hcond with hlo | hhi
  · have hlow : ctxLower s c tr.created_at (w / 2) = none := by
      unfold ctxLower
      rw [List.getElem?_eq_none (by rw [length_sortByLe, List.length_map]; exact hlo)]
      rfl
    rw [hlow]
    have hfil : s.messages.filter (fun r =>
        r.channel_id == c &&
        sqlLeOpt none r.created_at &&
        sqlLeOpt r.created_at (ctxUpper s c tr.created_at (w / 2))) = [] := by
      apply List.filter_eq_nil_iff.mpr
      intro r hr
      rw [sqlLeOpt_none_left]
      simp
    rw [hfil]
    rfl
  · have hhigh : ctxUpper s c tr.created_at (w / 2) = none := by
      unfold ctxUpper
      rw [List.getElem?_eq_none (by rw [length_sortByLe, List.length_map]; exact hhi)]
      rfl
    rw [hhigh]
    have hfil : s.messages.filter (fun r =>
        r.channel_id == c &&
        sqlLeOpt (ctxLower s c tr.created_at (w / 2)) r.created_at &&
        sqlLeOpt r.created_at none) = [] := by
      apply List.filter_eq_nil_iff.mpr
      intro r hr
      rw [sqlLeOpt_none_right]
      simp
    rw [hfil]
    rfl

/-- C10: when the channel holds at most floor(windowSize/2) messages
at-or-before the target's timestamp (or, symmetrically, at-or-after it),
the corresponding boundary subquery has no row at its OFFSET, its value is
NULL, the BETWEEN admits no row, and the context is the empty list — not a
partial window truncated at the channel boundary. -/
theorem c10_context_boundary_empty (s : Db) (c mid : String) (w : Nat) (tr : MsgRow)
    (hfind : s.messages.find? (fun r => r.id == mid) = some tr)
    (hcond :
      (s.messages.filter (fun r => r.channel_id == c && sqlLeOpt r.created_at tr.created_at)).length ≤ w / 2 ∨
      (s.messages.filter (fun r => r.channel_id == c && sqlLeOpt tr.created_at r.created_at)).length ≤ w / 2) :
    getContext s c mid w = [] :=
  getContext_empty_of_side_short s c mid w tr hfind hcond

/-- Three messages in the demo channel. -/
def c10db : Db :=
  upsertMessage (upsertMessage (upsertMessage demoBase
    (mkMsg "m1" "one" "2024-01-01T10:00:00") "t1")
    (mkMsg "m2" "two" "2024-01-01T11:00:00") "t1")
    (mkMsg "m3" "three" "2024-01-01T12:00:00") "t1"

/-- Witness for C10: with three stored messages and window 10 (half 5),
the side counts are at most 5, so the context of the middle message is
empty rather than the whole short channel. -/
theorem c10_context_boundary_empty_witness :
    (c10db.messages.find? (fun r => r.id == ("m2" : String)) = some (c10db.messages.get ⟨1, by decide⟩)) ∧
    ((c10db.messages.filter (fun r =>
        r.channel_id == ("c1" : String) &&
        sqlLeOpt r.created_at (c10db.messages.get ⟨1, by decide⟩).created_at)).length ≤ 10 / 2) ∧
    getContext c10db "c1" "m2" 10 = [] :=
  ⟨by decide, by decide,
    c10_context_boundary_empty c10db "c1" "m2" 10 (c10db.messages.get ⟨1, by decide⟩)
      (by decide) (Or.inl (by decide))⟩

/-! ## Claim C7 — search tokenization, OR recall policy, empty query -/

/-- Database holding the recall-policy example message. -/
def c7db : Db :=
  upsertMessage demoBase (mkMsg "m1" "the deployment pipeline is broken" "2024-01-03T10:00:00") "t1"

/-- C7: searchMessages tokenizes every query by replacing characters
outside [a-zA-Z0-9\s] with spaces, splitting on whitespace and discarding
empty tokens; a query whose sanitized form has no tokens returns the empty
list (for every database state and filter set) rather than an error, and
the OR join lets any single matching token produce a hit: the query
"deployment broken" finds the stored message "the deployment pipeline is
broken" (no phrase match needed), and so does a query pairing one matching
token with one absent from the corpus. -/
theorem c7_search_or_tokens :
    (∀ (s : Db) (q : String) (f : SearchFilters), sanitizeQuery q = [] → searchMessages s q f = []) ∧
    (sanitizeQuery "deployment broken" = ["deployment", "broken"]) ∧
    (sanitizeQuery "  ?!,.  " = []) ∧
    ((searchMessages c7db "deployment broken" {}).map (fun h => h.id) = ["m1"]) ∧
    ((searchMessages c7db "deployment zzxqqy" {}).map (fun h => h.id) = ["m1"]) ∧
    (searchMessages c7db "  ?!,.  " {} = []) := by
  refine ⟨?_, by decide, by decide, by decide, by decide, by decide⟩
  intro s q f h
  unfold searchMessages
  rw [h]
  rfl

/-- Witness for C7's universally quantified conjunct: the punctuation-only
query sanitizes to no tokens, and searching it on the demo database
returns the empty list via the theorem. -/
theorem c7_search_or_tokens_witness :
    sanitizeQuery "  ?!,.  " = [] ∧ searchMessages c7db "  ?!,.  " {} = [] :=
  ⟨by decide, c7_search_or_tokens.1 c7db "  ?!,.  " {} (by decide)⟩

/-! ## Claim C4 — rate limiter -/

/-- Unfolding of one sequential acquire: the exit write sees the watermark
it read at entry, because no other caller ran in between, and the wake
time is at or past that watermark. -/
theorem seqAcquires_cons (interval next t : Nat) (ts : List Nat) :
    seqAcquires interval next (t :: ts) =
      (max t next) :: seqAcquires interval (max t next + interval) ts := by
  show (max t next) :: seqAcquires interval (max (max t next) next + interval) ts = _
  rw [Nat.max_eq_left (Nat.le_max_right t next)]

/-- Every sequential grant is at or past the incoming watermark. -/
theorem seqAcquires_ge (interval : Nat) (times : List Nat) :
    ∀ next, ∀ g ∈ seqAcquires interval next times, next ≤ g := by
  induction times with
  | nil => intro next g hg; simp [seqAcquires] at hg
  | cons t ts ih =>
    intro next g hg
    rw [seqAcquires_cons] at hg
    rcases List.mem_cons.mp hg with rfl | hrest
    · exact Nat.le_max_right t next
    · calc next ≤ max t next + interval := Nat.le_add_right_of_le (Nat.le_max_right t next)
        _ ≤ g := ih (max t next + interval) g hrest

/-- C4 as amended: the guarantees hold for sequential use.  When each
acquire begins only after the previous one returned, the exit write
advances the watermark to exactly the grant time plus the interval
(first conjunct: Math.max(now, next) collapses because the wake time is
never before the watermark read at entry), consecutive grants are spaced
at least the interval apart (second conjunct), and the i-th grant lies at
least i * interval past the first, so N calls span at least
(N-1) * interval (third conjunct).  For overlapping callers these bounds
fail — see the counterexample: a caller that enters while another sleeps
reads the same watermark, wakes at the same time, and is granted
immediately without re-checking. -/
theorem c4_rate_sequential_spacing (interval next : Nat) (times : List Nat) :
    (∀ now, acquireExitNext next (acquireGrantTime next now) interval =
      acquireGrantTime next now + interval) ∧
    (∀ i g1 g2, (seqAcquires interval next times)[i]? = some g1 →
      (seqAcquires interval next times)[i + 1]? = some g2 → g1 + interval ≤ g2) ∧
    (∀ i g0 gi, (seqAcquires interval next times)[0]? = some g0 →
      (seqAcquires interval next times)[i]? = some gi → g0 + i * interval ≤ gi) := by
  refine ⟨?_, ?_, ?_⟩
  · intro now
    unfold acquireExitNext acquireGrantTime
    rw [Nat.max_eq_left (Nat.le_max_right now next)]
  · intro i g1 g2 h1 h2
    induction times generalizing next i with
    | nil => simp [seqAcquires] at h1
    | cons t ts ih =>
      rw [seqAcquires_cons] at h1 h2
      cases i with
      | zero =>
        rw [List.getElem?_cons_zero] at h1
        rw [List.getElem?_cons_succ] at h2
        cases h1
        exact seqAcquires_ge interval ts (max t next + interval) g2
          (List.getElem?_mem h2)
      | succ j =>
        rw [List.getElem?_cons_succ] at h1 h2
        exact ih (max t next + interval) j h1 h2
  · intro i g0 gi h0 hi
    induction times generalizing next i g0 gi with
    | nil => simp [seqAcquires] at h0
    | cons t ts ih =>
      rw [seqAcquires_cons] at h0 hi
      rw [List.getElem?_cons_zero] at h0
      cases h0
      cases i with
      | zero =>
        rw [List.getElem?_cons_zero] at hi
        cases hi
        simp
      | succ j =>
        rw [List.getElem?_cons_succ] at hi
        have hlen : j < (seqAcquires interval (max t next + interval) ts).length :=
          (List.getElem?_eq_some.mp hi).1
        have hne : 0 < (seqAcquires interval (max t next + interval) ts).length :=
          Nat.lt_of_le_of_lt (Nat.zero_le j) hlen
        have hg1' : (seqAcquires interval (max t next + interval) ts)[0]? = some
            ((seqAcquires interval (max t next + interval) ts)[0]) :=
          List.getElem?_eq_getElem hne
        have hstep := ih (max t next + interval) j _ gi hg1' hi
        have hbase : max t next + interval ≤
            (seqAcquires interval (max t next + interval) ts)[0] :=
          seqAcquires_ge interval ts (max t next + interval) _
            (List.getElem?_mem hg1')
        calc max t next + (j + 1) * interval
            = (max t next + interval) + j * interval := by ring
          _ ≤ (seqAcquires interval (max t next + interval) ts)[0] + j * interval :=
              Nat.add_le_add_right hbase _
          _ ≤ gi := hstep

/-- Watermark present when the two concurrent demo callers arrive (left by
a grant one interval earlier). -/
def c4next0 : Nat := 1000

/-- Caller A enters acquire at time 0: 0 is before the watermark, so A
sleeps until it. -/
def c4wakeA : Nat := acquireGrantTime c4next0 0

/-- Caller B enters acquire at time 1 while A still sleeps: the watermark
has not moved (A's exit write runs only after its sleep), so B also sleeps
until the same instant. -/
def c4wakeB : Nat := acquireGrantTime c4next0 1

/-- Watermark after A resumes at its wake time and runs its exit write. -/
def c4nextAfterA : Nat := acquireExitNext c4next0 c4wakeA 1000

/-- Watermark after B resumes (same instant) and runs its exit write,
reading the watermark A just advanced. -/
def c4nextAfterB : Nat := acquireExitNext c4nextAfterA c4wakeB 1000

/-- Counterexample to C4: two callers that enter acquire while the
watermark lies in the future are granted at the same instant — the code
never re-checks the watermark after its sleep.  Both wake at time 1000, so
the two calls complete with zero aggregate spacing, beating the claimed
(N-1) * interval = 1000 bound, and the aggregate grant rate momentarily
exceeds one per interval.  The watermark itself still advances past both
exits. -/
theorem c4_rate_counterexample :
    c4wakeA = 1000 ∧ c4wakeB = 1000 ∧
    max c4wakeA c4wakeB < min c4wakeA c4wakeB + (2 - 1) * 1000 ∧
    c4nextAfterA = 2000 ∧ c4nextAfterB = 3000 := by
  refine ⟨by decide, by decide, by decide, by decide, by decide⟩

/-- Witness for C4's amended theorem: three sequential acquires entered at
times 0, 0 and 500 against a zero watermark with a 1000 ms interval are
granted at 0, 1000 and 2000. -/
theorem c4_rate_sequential_spacing_witness :
    seqAcquires 1000 0 [0, 0, 500] = [0, 1000, 2000] ∧
    (seqAcquires 1000 0 [0, 0, 500])[0]? = some 0 ∧
    (seqAcquires 1000 0 [0, 0, 500])[2]? = some 2000 ∧
    0 + 2 * 1000 ≤ 2000 :=
  ⟨by decide, by decide, by decide,
    (c4_rate_sequential_spacing 1000 0 [0, 0, 500]).2.2 2 0 2000 (by decide) (by decide)⟩

/-! ## Claim C5 — bounded task runner -/

/-- Scheduler invariant of parallelMap: the idx counter never passes N,
the worker count is fixed at min(C, N), the results array has one slot per
item, every claimed-and-running index was handed out by the counter, every
stored result is the unit of work's value at its own index, and every
handed-out index is finished-and-stored or still claimed by some worker. -/
def PMInv (n c : Nat) (f : Nat → β) (s : PMState β) : Prop :=
  s.idx ≤ n ∧
  s.running.length = min c n ∧
  s.results.length = n ∧
  (∀ (w i : Nat), s.running[w]? = some (some i) → i < s.idx) ∧
  (∀ (i : Nat) (v : β), s.results[i]? = some (some v) → v = f i) ∧
  (∀ i : Nat, i < s.idx →
    s.results[i]? = some (some (f i)) ∨ ∃ w : Nat, s.running[w]? = some (some i))

/-- The initial parallelMap state satisfies the invariant. -/
theorem pmInv_init (n c : Nat) (f : Nat → β) : PMInv n c f (pmInit β n c) := by
  refine ⟨Nat.zero_le n, List.length_replicate .., List.length_replicate .., ?_, ?_, ?_⟩
  · intro w i hw
    have hmem := List.getElem?_mem hw
    have heq := List.eq_of_mem_replicate hmem
    simp at heq
  · intro i v hv
    have hmem := List.getElem?_mem hv
    have heq := List.eq_of_mem_replicate hmem
    simp at heq
  · intro i hi
    exact absurd hi (Nat.not_lt_zero i)

/-- Each scheduler step preserves the invariant. -/
theorem pmInv_step (n c : Nat) (f : Nat → β) (s s2 : PMState β)
    (hinv : PMInv n c f s) (hstep : PMStep n f s s2) : PMInv n c f s2 := by
  obtain ⟨h1, h2, h3, h4, h5, h6⟩ := hinv
  cases hstep with
  | start w hw hidx =>
    have hwlen : w < s.running.length := (List.getElem?_eq_some.mp hw).1
    refine ⟨hidx, ?_, h3, ?_, h5, ?_⟩
    · rw [List.length_set]; exact h2
    · intro w2 i hw2
      by_cases hww : w = w2
      · subst hww
        rw [List.getElem?_set_self hwlen] at hw2
        cases hw2
        exact Nat.lt_succ_self _
      · rw [List.getElem?_set_ne hww] at hw2
        exact Nat.lt_succ_of_lt (h4 w2 i hw2)
    · intro i hi
      rcases Nat.lt_succ_iff_lt_or_eq.mp hi with hlt | rfl
      · rcases h6 i hlt with hres | ⟨w2, hw2⟩
        · exact Or.inl hres
        · refine Or.inr ⟨w2, ?_⟩
          have hww : w ≠ w2 := by
            intro hc; subst hc
            rw [hw] at hw2
            cases hw2
          rw [List.getElem?_set_ne hww]
          exact hw2
      · exact Or.inr ⟨w, by rw [List.getElem?_set_self hwlen]⟩
  | finish w i hw =>
    have hwlen : w < s.running.length := (List.getElem?_eq_some.mp hw).1
    have hilt : i < s.idx := h4 w i hw
    have hireslen : i < s.results.length := by rw [h3]; exact Nat.lt_of_lt_of_le hilt h1
    refine ⟨h1, ?_, ?_, ?_, ?_, ?_⟩
    · rw [List.length_set]; exact h2
    · rw [List.length_set]; exact h3
    · intro w2 j hw2
      by_cases hww : w = w2
      · subst hww
        rw [List.getElem?_set_self hwlen] at hw2
        cases hw2
      · rw [List.getElem?_set_ne hww] at hw2
        exact h4 w2 j hw2
    · intro j v hv
      by_cases hij : i = j
      · subst hij
        rw [List.getElem?_set_self hireslen] at hv
        cases hv
        rfl
      · rw [List.getElem?_set_ne hij] at hv
        exact h5 j v hv
    · intro j hj
      by_cases hij : i = j
      · subst hij
        exact Or.inl (by rw [List.getElem?_set_self hireslen])
      · rcases h6 j hj with hres | ⟨w2, hw2⟩
        · exact Or.inl (by rw [List.getElem?_set_ne hij]; exact hres)
        · refine Or.inr ⟨w2, ?_⟩
          have hww : w ≠ w2 := by
            intro hc; subst hc
            rw [hw] at hw2
            cases hw2
            exact hij rfl
          rw [List.getElem?_set_ne hww]
          exact hw2

/-- Every reachable parallelMap state satisfies the invariant. -/
theorem pmInv_reach (n c : Nat) (f : Nat → β) (s : PMState β)
    (h : PMReach n c f s) : PMInv n c f s := by
  induction h with
  | refl => exact pmInv_init n c f
  | tail hr hstep ih => exact pmInv_step n c f _ _ ih hstep

/-- C5: parallelMap spawns exactly min(N, C) workers (first conjunct, so
only N when N < C); in every reachable scheduler state at most min(N, C)
— in particular at most C — units of work are in flight (second
conjunct); whenever the run terminates (idx exhausted and all workers
idle), whatever the interleaving of starts and finishes, the results
array holds the unit of work's value for every item at the item's
original index (third conjunct); and for N = 0 the initial state is
already terminal with the empty results array (fourth conjunct). -/
theorem c5_parallel_map_correct {β : Type} (n c : Nat) (f : Nat → β) :
    ((pmInit β n c).running.length = min c n) ∧
    (∀ s, PMReach n c f s → pmInFlight s ≤ min c n) ∧
    (∀ s, PMReach n c f s → PMDone n s →
      s.results = (List.range n).map (fun i => some (f i))) ∧
    (n = 0 → PMDone n (pmInit β n c) ∧ (pmInit β n c).results = []) := by
  refine ⟨List.length_replicate .., ?_, ?_, ?_⟩
  · intro s hs
    have h2 := (pmInv_reach n c f s hs).2.1
    calc pmInFlight s ≤ s.running.length := List.length_filter_le _ _
      _ = min c n := h2
  · intro s hs hdone
    obtain ⟨h1, h2, h3, h4, h5, h6⟩ := pmInv_reach n c f s hs
    apply List.ext_getElem?
    intro i
    by_cases hin : i < n
    · have hfull : s.results[i]? = some (some (f i)) := by
        rcases h6 i (Nat.lt_of_lt_of_le hin (Nat.le_of_lt_succ (Nat.lt_succ_of_le hdone.1))) with hres | ⟨w, hw⟩
        · exact hres
        · exact absurd (hdone.2 _ (List.getElem?_mem hw)) (by simp)
      rw [hfull, List.getElem?_map, List.getElem?_range hin]
      rfl
    · rw [List.getElem?_eq_none (by rw [h3]; exact Nat.le_of_not_lt hin),
        List.getElem?_eq_none (by rw [List.length_map, List.length_range]; exact Nat.le_of_not_lt hin)]
  · intro hn
    subst hn
    exact ⟨⟨Nat.zero_le _, fun o ho => List.eq_of_mem_replicate ho⟩, rfl⟩

/-- The demo unit of work. -/
def c5f : Nat → Nat := fun i => i * 10

/-- Demo trace states: two items, two workers; worker 1 finishes before
worker 0, exercising out-of-order completion. -/
def c5s0 : PMState Nat := pmInit Nat 2 2

def c5s1 : PMState Nat := ⟨1, [some 0, none], [none, none]⟩

def c5s2 : PMState Nat := ⟨2, [some 0, some 1], [none, none]⟩

def c5s3 : PMState Nat := ⟨2, [some 0, none], [none, some 10]⟩

def c5s4 : PMState Nat := ⟨2, [none, none], [some 0, some 10]⟩

/-- The demo trace is a run of the scheduler. -/
theorem c5_demo_reach4 : PMReach 2 2 c5f c5s4 := by
  have h01 : PMStep 2 c5f c5s0 c5s1 := PMStep.start c5s0 0 (by decide) (by decide)
  have h12 : PMStep 2 c5f c5s1 c5s2 := PMStep.start c5s1 1 (by decide) (by decide)
  have h23 : PMStep 2 c5f c5s2 c5s3 := PMStep.finish c5s2 1 1 (by decide)
  have h34 : PMStep 2 c5f c5s3 c5s4 := PMStep.finish c5s3 0 0 (by decide)
  exact Relation.ReflTransGen.tail
    (Relation.ReflTransGen.tail
      (Relation.ReflTransGen.tail
        (Relation.ReflTransGen.tail Relation.ReflTransGen.refl h01) h12) h23) h34

/-- The mid-trace state with both units in flight is reachable. -/
theorem c5_demo_reach2 : PMReach 2 2 c5f c5s2 := by
  have h01 : PMStep 2 c5f c5s0 c5s1 := PMStep.start c5s0 0 (by decide) (by decide)
  have h12 : PMStep 2 c5f c5s1 c5s2 := PMStep.start c5s1 1 (by decide) (by decide)
  exact Relation.ReflTransGen.tail
    (Relation.ReflTransGen.tail Relation.ReflTransGen.refl h01) h12

/-- Witness for C5: on the two-item demo run with out-of-order completion,
the worker count is min(2, 2), the in-flight bound holds at the state with
both units running, and the terminal results sit at the items' original
indices. -/
theorem c5_parallel_map_correct_witness :
    (pmInit Nat 2 2).running.length = min 2 2 ∧
    pmInFlight c5s2 ≤ min 2 2 ∧
    c5s4.results = (List.range 2).map (fun i => some (c5f i)) :=
  ⟨(c5_parallel_map_correct 2 2 c5f).1,
   (c5_parallel_map_correct 2 2 c5f).2.1 c5s2 c5_demo_reach2,
   (c5_parallel_map_correct 2 2 c5f).2.2.1 c5s4 c5_demo_reach4 (by decide)⟩

/-! ## Claim C8 — per-channel error containment -/

/-- upsertMessage never touches the cursor table. -/
theorem upsertMessage_cursors (s : Db) (m : MsgInput) (now : String) :
    (upsertMessage s m now).importCursors = s.importCursors := by
  unfold upsertMessage
  cases s.messages.find? (fun r => r.id == m.id) <;> rfl

/-- A page transaction never touches the cursor table. -/
theorem applyPageTxn_cursors (page : List PageMsg) (s : Db) (cid : String)
    (gid : Option String) (now : String) :
    (applyPageTxn s page cid gid now).importCursors = s.importCursors := by
  induction page generalizing s with
  | nil => rfl
  | cons pm rest ih =>
    rw [applyPageTxn_cons]
    cases pm.author with
    | none => rw [ih]; exact upsertMessage_cursors ..
    | some u =>
      rw [ih, (upsertUser_frame (upsertMessage s (pageInput pm cid gid) now) u now).2.2.1]
      exact upsertMessage_cursors ..

/-- One unfolding of the pagination loop. -/
theorem importLoop_succ (fetch : Nat → FetchOpts → Except JsErrCode (List PageMsg))
    (cid : String) (gid : Option String) (now : String) (afterId : Option String)
    (fuel iter : Nat) (s : Db) (latestId lastId : Option String)
    (msgCount : Nat) (newestIds : List String) :
    importLoop fetch cid gid now afterId (fuel + 1) iter s latestId lastId msgCount newestIds =
      match fetch iter (pageOpts afterId lastId) with
      | .error e => (s, classifyFetchErr e)
      | .ok [] => finishImport s cid latestId newestIds msgCount now
      | .ok (newest :: rest) =>
        if (newest :: rest).length == PAGE_SIZE then
          importLoop fetch cid gid now afterId fuel (iter + 1)
            (applyPageTxn s (newest :: rest) cid gid now)
            (bumpLatest latestId newest.msg.id)
            (some ((rest.getLastD newest).msg.id))
            (msgCount + (newest :: rest).length)
            (newestIds ++ [newest.msg.id])
        else
          finishImport (applyPageTxn s (newest :: rest) cid gid now) cid
            (bumpLatest latestId newest.msg.id)
            (newestIds ++ [newest.msg.id])
            (msgCount + (newest :: rest).length) now := rfl

/-- No catch branch produces a completed status. -/
theorem classifyFetchErr_ne_completed (e : JsErrCode) (l : Option String)
    (n : List String) (m : Nat) : classifyFetchErr e ≠ .completed l n m := by
  unfold classifyFetchErr
  cases e with
  | num k =>
    by_cases h : (k == 50001 || k == 50013) = true <;> simp [h]
  | str c =>
    by_cases h : (c == "ETIMEDOUT" || c == "ECONNRESET") = true <;> simp [h]
  | uncategorised => simp

/-- Every loop exit through a catch branch leaves the cursor table exactly
as it was when the loop started: the page transactions committed before
the failure touch only messages, users and the index, and the cursor
write is reached only on the completed path. -/
theorem importLoop_error_cursors (fetch : Nat → FetchOpts → Except JsErrCode (List PageMsg))
    (cid : String) (gid : Option String) (now : String) (afterId : Option String) :
    ∀ (fuel iter : Nat) (s : Db) (latestId lastId : Option String)
      (msgCount : Nat) (newestIds : List String) (s1 : Db) (st : ImportStatus),
      importLoop fetch cid gid now afterId fuel iter s latestId lastId msgCount newestIds = (s1, st) →
      (st = .skippedAccess ∨ st = .skippedTransient ∨ st = .skippedOther) →
      s1.importCursors = s.importCursors := by
  intro fuel
  induction fuel with
  | zero =>
    intro iter s latestId lastId msgCount newestIds s1 st heq hst
    unfold importLoop at heq
    cases heq
    rfl
  | succ fuel ih =>
    intro iter s latestId lastId msgCount newestIds s1 st heq hst
    rw [importLoop_succ] at heq
    cases hfetch : fetch iter (pageOpts afterId lastId) with
    | error e =>
      rw [hfetch] at heq
      have heq2 : (s, classifyFetchErr e) = (s1, st) := heq
      cases heq2
      rfl
    | ok msgs =>
      rw [hfetch] at heq
      cases msgs with
      | nil =>
        exfalso
        have heq2 : finishImport s cid latestId newestIds msgCount now = (s1, st) := heq
        unfold finishImport at heq2
        cases latestId with
        | none =>
          cases heq2
          rcases hst with h | h | h <;> cases h
        | some l =>
          cases heq2
          rcases hst with h | h | h <;> cases h
      | cons newest rest =>
        have heq2 : (if ((newest :: rest).length == PAGE_SIZE) = true then
            importLoop fetch cid gid now afterId fuel (iter + 1)
              (applyPageTxn s (newest :: rest) cid gid now)
              (bumpLatest latestId newest.msg.id)
              (some ((rest.getLastD newest).msg.id))
              (msgCount + (newest :: rest).length)
              (newestIds ++ [newest.msg.id])
          else
            finishImport (applyPageTxn s (newest :: rest) cid gid now) cid
              (bumpLatest latestId newest.msg.id)
              (newestIds ++ [newest.msg.id])
              (msgCount + (newest :: rest).length) now) = (s1, st) := heq
        by_cases hfull : ((newest :: rest).length == PAGE_SIZE) = true
        · rw [if_pos hfull] at heq2
          have := ih (iter + 1) (applyPageTxn s (newest :: rest) cid gid now)
            (bumpLatest latestId newest.msg.id)
            (some ((rest.getLastD newest).msg.id))
            (msgCount + (newest :: rest).length)
            (newestIds ++ [newest.msg.id]) s1 st heq2 hst
          rw [this]
          exact applyPageTxn_cursors ..
        · rw [if_neg hfull] at heq2
          exfalso
          unfold finishImport at heq2
          cases hb : bumpLatest latestId newest.msg.id with
          | none =>
            rw [hb] at heq2
            cases heq2
            rcases hst with h | h | h <;> cases h
          | some l =>
            rw [hb] at heq2
            cases heq2
            rcases hst with h | h | h <;> cases h

/-- C8: a channel backfill contains every fetch failure.  First conjunct:
whenever importChannel ends in one of the three catch classes — missing
access (codes 50001/50013), transient network (ETIMEDOUT/ECONNRESET), or
any other fetch error — the cursor table is exactly as before the call,
whichever page the failure struck.  Second conjunct: a failure on the very
first fetch leaves the whole database untouched and the status is the
catch classification of the error's code, so no exception propagates.
Third conjunct: the classification matches the source's tests literally.
Fourth conjunct: the guild-level fan-out still produces one outcome per
channel, whatever each channel's fetch oracle did — sibling channels and
the run continue. -/
theorem c8_import_error_containment :
    (∀ (fetch : Nat → FetchOpts → Except JsErrCode (List PageMsg)) (s : Db) (cid : String)
        (gid : Option String) (now : String) (fuel : Nat) (s1 : Db) (st : ImportStatus),
      importChannel fetch s cid gid now fuel = (s1, st) →
      (st = .skippedAccess ∨ st = .skippedTransient ∨ st = .skippedOther) →
      s1.importCursors = s.importCursors) ∧
    (∀ (fetch : Nat → FetchOpts → Except JsErrCode (List PageMsg)) (s : Db) (cid : String)
        (gid : Option String) (now : String) (fuel : Nat) (e : JsErrCode),
      fetch 0 (pageOpts (getImportCursor s cid) none) = .error e →
      importChannel fetch s cid gid now (fuel + 1) = (s, classifyFetchErr e)) ∧
    (classifyFetchErr (.num 50001) = .skippedAccess ∧
     classifyFetchErr (.num 50013) = .skippedAccess ∧
     classifyFetchErr (.str "ETIMEDOUT") = .skippedTransient ∧
     classifyFetchErr (.str "ECONNRESET") = .skippedTransient ∧
     classifyFetchErr (.num 404) = .skippedOther ∧
     classifyFetchErr (.str "EOTHER") = .skippedOther ∧
     classifyFetchErr .uncategorised = .skippedOther) ∧
    (∀ (fetchF : String → Nat → FetchOpts → Except JsErrCode (List PageMsg)) (s : Db)
        (cids : List String) (gid : Option String) (now : String) (fuel : Nat),
      (importChannels fetchF s cids gid now fuel).2.length = cids.length) := by
  refine ⟨?_, ?_, by decide, ?_⟩
  · intro fetch s cid gid now fuel s1 st heq hst
    exact importLoop_error_cursors fetch cid gid now (getImportCursor s cid)
      fuel 0 s (getImportCursor s cid) none 0 [] s1 st heq hst
  · intro fetch s cid gid now fuel e hfetch
    unfold importChannel
    rw [importLoop_succ, hfetch]
  · intro fetchF s cids gid now fuel
    unfold importChannels
    suffices h : ∀ (acc : Db × List ImportStatus),
        (cids.foldl (fun acc cid =>
          ((importChannel (fetchF cid) acc.1 cid gid now fuel).1,
            acc.2 ++ [(importChannel (fetchF cid) acc.1 cid gid now fuel).2])) acc).2.length =
          acc.2.length + cids.length by
      simpa using h (s, [])
    induction cids with
    | nil => intro acc; simp
    | cons cid rest ih =>
      intro acc
      rw [List.foldl_cons, ih]
      simp
      omega

/-- Fetch oracle that reports missing access at once. -/
def c8accessFetch : Nat → FetchOpts → Except JsErrCode (List PageMsg) :=
  fun _ _ => .error (.num 50001)

/-- Fetch oracle that reports a timeout at once. -/
def c8timeoutFetch : Nat → FetchOpts → Except JsErrCode (List PageMsg) :=
  fun _ _ => .error (.str "ETIMEDOUT")

/-- Witness for C8: a permission-denied first fetch leaves the database
untouched with status skippedAccess and the cursor table unchanged; a
timed-out first fetch likewise with skippedTransient; and two channels
imported with these failing oracles still yield two statuses. -/
theorem c8_import_error_containment_witness :
    (importChannel c8accessFetch demoBase "c1" (some "g1") "t1" 5 =
      (demoBase, ImportStatus.skippedAccess)) ∧
    (importChannel c8timeoutFetch demoBase "c1" (some "g1") "t1" 5 =
      (demoBase, ImportStatus.skippedTransient)) ∧
    ((importChannel c8accessFetch demoBase "c1" (some "g1") "t1" 5).1.importCursors =
      demoBase.importCursors) ∧
    ((importChannels (fun _ => c8accessFetch) demoBase ["c1", "c2"] (some "g1") "t1" 5).2.length =
      (["c1", "c2"] : List String).length) := by
  refine ⟨?_, ?_, ?_, ?_⟩
  · exact c8_import_error_containment.2.1 c8accessFetch demoBase "c1" (some "g1") "t1" 4 (.num 50001) rfl
  · exact c8_import_error_containment.2.1 c8timeoutFetch demoBase "c1" (some "g1") "t1" 4 (.str "ETIMEDOUT") rfl
  · exact c8_import_error_containment.1 c8accessFetch demoBase "c1" (some "g1") "t1" 5
      (importChannel c8accessFetch demoBase "c1" (some "g1") "t1" 5).1
      (importChannel c8accessFetch demoBase "c1" (some "g1") "t1" 5).2 rfl
      (Or.inl (by decide))
  · exact c8_import_error_containment.2.2.2 (fun _ => c8accessFetch) demoBase ["c1", "c2"]
      (some "g1") "t1" 5

/-! ## Claim C9 — cursor advance -/

/-- Lexicographic comparison is irreflexive. -/
theorem lexLtC_irrefl : ∀ a : List Char, lexLtC a a = false := by
  intro a
  induction a with
  | nil => rfl
  | cons x xs ih => simp [lexLtC, lt_irrefl, ih]

/-- Lexicographic comparison is transitive. -/
theorem lexLtC_trans : ∀ {a b c : List Char},
    lexLtC a b = true → lexLtC b c = true → lexLtC a c = true := by
  intro a
  induction a with
  | nil =>
    intro b c h1 h2
    cases b with
    | nil => simp [lexLtC] at h1
    | cons y ys =>
      cases c with
      | nil => simp [lexLtC] at h2
      | cons z zs => rfl
  | cons x xs ih =>
    intro b c h1 h2
    cases b with
    | nil => simp [lexLtC] at h1
    | cons y ys =>
      cases c with
      | nil => simp [lexLtC] at h2
      | cons z zs =>
        unfold lexLtC at h1 h2 ⊢
        by_cases hxy : x < y
        · by_cases hyz : y < z
          · simp [lt_trans hxy hyz]
          · by_cases hzy : z < y
            · simp [hyz, hzy] at h2
            · have hy : y = z := le_antisymm (not_lt.mp hzy) (not_lt.mp hyz)
              subst hy
              simp [hxy]
        · by_cases hyx : y < x
          · simp [hxy, hyx] at h1
          · have hx : x = y := le_antisymm (not_lt.mp hyx) (not_lt.mp hxy)
            subst hx
            simp [lt_irrefl] at h1
            by_cases hxz : x < z
            · simp [hxz]
            · by_cases hzx : z < x
              · simp [hxz, hzx] at h2
              · have hz : x = z := le_antisymm (not_lt.mp hzx) (not_lt.mp hxz)
                subst hz
                simp [lt_irrefl] at h2 ⊢
                exact ih h1 h2

/-- Lexicographic comparison is trichotomous. -/
theorem lexLtC_trichotomy : ∀ a b : List Char,
    lexLtC a b = true ∨ a = b ∨ lexLtC b a = true := by
  intro a
  induction a with
  | nil =>
    intro b
    cases b with
    | nil => exact Or.inr (Or.inl rfl)
    | cons y ys => exact Or.inl rfl
  | cons x xs ih =>
    intro b
    cases b with
    | nil => exact Or.inr (Or.inr rfl)
    | cons y ys =>
      rcases lt_trichotomy x y with hlt | heq | hgt
      · exact Or.inl (by simp [lexLtC, hlt])
      · subst heq
        rcases ih ys with h | h | h
        · exact Or.inl (by simp [lexLtC, lt_irrefl, h])
        · exact Or.inr (Or.inl (by rw [h]))
        · exact Or.inr (Or.inr (by simp [lexLtC, lt_irrefl, h]))
      · exact Or.inr (Or.inr (by simp [lexLtC, hgt]))

/-- JavaScript string comparison is irreflexive. -/
theorem jsLt_irrefl (a : String) : jsLt a a = false := lexLtC_irrefl a.data

/-- JavaScript string comparison is transitive. -/
theorem jsLt_trans {a b c : String} (h1 : jsLt a b = true) (h2 : jsLt b c = true) :
    jsLt a c = true := lexLtC_trans h1 h2

/-- JavaScript string comparison is trichotomous. -/
theorem jsLt_trichotomy (a b : String) : jsLt a b = true ∨ a = b ∨ jsLt b a = true := by
  rcases lexLtC_trichotomy a.data b.data with h | h | h
  · exact Or.inl h
  · exact Or.inr (Or.inl (String.ext h))
  · exact Or.inr (Or.inr h)

/-- The accumulator never ends up lexicographically below the id it was
just bumped with. -/
theorem bumpLatest_not_lt (init : Option String) (nid b : String)
    (h : bumpLatest init nid = some b) : jsLt b nid = false := by
  unfold bumpLatest at h
  cases init with
  | none =>
    have h2 : some nid = some b := h
    cases h2
    exact jsLt_irrefl nid
  | some l =>
    have h2 : (if jsLt l nid = true then some nid else some l) = some b := h
    by_cases hl : jsLt l nid = true
    · rw [if_pos hl] at h2
      cases h2
      exact jsLt_irrefl nid
    · rw [if_neg hl] at h2
      cases h2
      exact Bool.not_eq_true _ |>.mp hl

/-- What the fold of the cursor accumulator computes: an element of the
folded list (or the initial cursor) that no folded element and no initial
cursor exceeds in JavaScript string order. -/
theorem foldl_bumpLatest_spec (ids : List String) :
    ∀ (init : Option String) (l : String),
      ids.foldl bumpLatest init = some l →
      (l ∈ ids ∨ init = some l) ∧
      (∀ x ∈ ids, jsLt l x = false) ∧
      (∀ i0, init = some i0 → jsLt l i0 = false) := by
  induction ids with
  | nil =>
    intro init l h
    simp only [List.foldl_nil] at h
    refine ⟨Or.inr h, by simp, ?_⟩
    intro i0 hi0
    rw [h] at hi0
    cases hi0
    exact jsLt_irrefl l
  | cons nid rest ih =>
    intro init l h
    rw [List.foldl_cons] at h
    obtain ⟨hmem, hmax, hinit⟩ := ih (bumpLatest init nid) l h
    have hbsome : ∃ b, bumpLatest init nid = some b := by
      cases init with
      | none => exact ⟨nid, rfl⟩
      | some l0 =>
        by_cases hl : jsLt l0 nid = true
        · exact ⟨nid, show (if jsLt l0 nid = true then some nid else some l0) = some nid by
            rw [if_pos hl]⟩
        · exact ⟨l0, show (if jsLt l0 nid = true then some nid else some l0) = some l0 by
            rw [if_neg hl]⟩
    obtain ⟨b, hb⟩ := hbsome
    have hlb : jsLt l b = false := hinit b hb
    have hbn : jsLt b nid = false := bumpLatest_not_lt init nid b hb
    have hln : jsLt l nid = false := by
      by_cases hc : jsLt l nid = true
      · exfalso
        rcases jsLt_trichotomy l b with hlb2 | rfl | hbl
        · rw [hlb2] at hlb; cases hlb
        · rw [hc] at hbn; cases hbn
        · have : jsLt b nid = true := jsLt_trans hbl hc
          rw [this] at hbn; cases hbn
      · exact Bool.not_eq_true _ |>.mp hc
    refine ⟨?_, ?_, ?_⟩
    · rcases hmem with hin | hbl2
      · exact Or.inl (List.mem_cons_of_mem _ hin)
      · cases init with
        | none =>
          have hb3 : some nid = some l := hbl2
          cases hb3
          exact Or.inl (List.mem_cons_self ..)
        | some l0 =>
          have hb3 : (if jsLt l0 nid = true then some nid else some l0) = some l := hbl2
          by_cases hl : jsLt l0 nid = true
          · rw [if_pos hl] at hb3; cases hb3; exact Or.inl (List.mem_cons_self ..)
          · rw [if_neg hl] at hb3; cases hb3; exact Or.inr rfl
    · intro x hx
      rcases List.mem_cons.mp hx with rfl | hxr
      · exact hln
      · exact hmax x hxr
    · intro i0 hi0
      subst hi0
      have hb2 : (if jsLt i0 nid = true then some nid else some i0) = some b := hb
      by_cases hl : jsLt i0 nid = true
      · rw [if_pos hl] at hb2
        cases hb2
        by_cases hc : jsLt l i0 = true
        · exfalso
          have : jsLt l nid = true := jsLt_trans hc hl
          rw [this] at hln; cases hln
        · exact Bool.not_eq_true _ |>.mp hc
      · rw [if_neg hl] at hb2
        cases hb2
        exact hlb

/-- Reading a cursor straight after storing it returns the stored id. -/
theorem getImportCursor_set (s : Db) (cid l now : String) :
    getImportCursor (setImportCursor s cid l now) cid = some l := by
  unfold getImportCursor setImportCursor
  cases hf : s.importCursors.find? (fun r => r.channel_id == cid) with
  | some r =>
    rw [find?_map_if (fun r : CursorRow => r.channel_id == cid)
      (fun r => { r with latest_id := l, updated_at := now }) (fun a ha => ha)
      s.importCursors, hf]
    rfl
  | none =>
    rw [List.find?_append, hf]
    simp

/-- A completed pagination loop: the analysis of the accumulator.  The
newest-id list returned in the status extends the accumulated one by the
pages the run saw, the final latestId equals the bumpLatest fold of those
ids over the incoming accumulator, and the cursor table reflects it: a
some value was stored and reads back; a none value means the cursor table
was never written. -/
theorem importLoop_completed_spec (fetch : Nat → FetchOpts → Except JsErrCode (List PageMsg))
    (cid : String) (gid : Option String) (now : String) (afterId : Option String) :
    ∀ (fuel iter : Nat) (s : Db) (latestId lastId : Option String) (msgCount : Nat)
      (acc : List String) (s1 : Db) (lf : Option String) (nt : List String) (mc : Nat),
      importLoop fetch cid gid now afterId fuel iter s latestId lastId msgCount acc =
        (s1, .completed lf nt mc) →
      (∃ suf, nt = acc ++ suf ∧ lf = suf.foldl bumpLatest latestId) ∧
      (∀ l, lf = some l → getImportCursor s1 cid = some l) ∧
      (lf = none → s1.importCursors = s.importCursors) := by
  intro fuel
  induction fuel with
  | zero =>
    intro iter s latestId lastId msgCount acc s1 lf nt mc heq
    unfold importLoop at heq
    have : ImportStatus.outOfFuel = ImportStatus.completed lf nt mc :=
      congrArg Prod.snd heq
    cases this
  | succ fuel ih =>
    intro iter s latestId lastId msgCount acc s1 lf nt mc heq
    rw [importLoop_succ] at heq
    cases hfetch : fetch iter (pageOpts afterId lastId) with
    | error e =>
      rw [hfetch] at heq
      exfalso
      have heq2 : (s, classifyFetchErr e) = (s1, ImportStatus.completed lf nt mc) := heq
      exact classifyFetchErr_ne_completed e lf nt mc (congrArg Prod.snd heq2)
    | ok msgs =>
      rw [hfetch] at heq
      cases msgs with
      | nil =>
        have heq2 : finishImport s cid latestId acc msgCount now =
            (s1, ImportStatus.completed lf nt mc) := heq
        unfold finishImport at heq2
        cases latestId with
        | none =>
          cases heq2
          refine ⟨⟨[], by simp, by simp⟩, ⟨?_, ?_⟩⟩
          · intro l h
            exact absurd h (by simp)
          · intro _
            rfl
        | some l0 =>
          cases heq2
          refine ⟨⟨[], by simp, by simp⟩, ⟨?_, ?_⟩⟩
          · intro l h
            have h2 := Option.some.inj h
            subst h2
            exact getImportCursor_set s cid l0 now
          · intro h
            exact absurd h (by simp)
      | cons newest rest =>
        have heq2 : (if ((newest :: rest).length == PAGE_SIZE) = true then
            importLoop fetch cid gid now afterId fuel (iter + 1)
              (applyPageTxn s (newest :: rest) cid gid now)
              (bumpLatest latestId newest.msg.id)
              (some ((rest.getLastD newest).msg.id))
              (msgCount + (newest :: rest).length)
              (acc ++ [newest.msg.id])
          else
            finishImport (applyPageTxn s (newest :: rest) cid gid now) cid
              (bumpLatest latestId newest.msg.id)
              (acc ++ [newest.msg.id])
              (msgCount + (newest :: rest).length) now) =
            (s1, ImportStatus.completed lf nt mc) := heq
        by_cases hfull : ((newest :: rest).length == PAGE_SIZE) = true
        · rw [if_pos hfull] at heq2
          obtain ⟨⟨suf, hsuf, hlf⟩, hcur, hnone⟩ := ih (iter + 1)
            (applyPageTxn s (newest :: rest) cid gid now)
            (bumpLatest latestId newest.msg.id)
            (some ((rest.getLastD newest).msg.id))
            (msgCount + (newest :: rest).length)
            (acc ++ [newest.msg.id]) s1 lf nt mc heq2
          refine ⟨⟨newest.msg.id :: suf, by rw [hsuf]; simp, by rw [hlf, List.foldl_cons]⟩,
            ⟨hcur, ?_⟩⟩
          intro h
          rw [hnone h]
          exact applyPageTxn_cursors ..
        · rw [if_neg hfull] at heq2
          unfold finishImport at heq2
          cases hb : bumpLatest latestId newest.msg.id with
          | none =>
            rw [hb] at heq2
            cases heq2
            refine ⟨⟨[newest.msg.id], by simp, by rw [List.foldl_cons, List.foldl_nil, hb]⟩,
              ⟨?_, ?_⟩⟩
            · intro l h
              exact absurd h (by simp)
            · intro _
              exact applyPageTxn_cursors ..
          | some l0 =>
            rw [hb] at heq2
            cases heq2
            refine ⟨⟨[newest.msg.id], by simp, by rw [List.foldl_cons, List.foldl_nil, hb]⟩,
              ⟨?_, ?_⟩⟩
            · intro l h
              have h2 := Option.some.inj h
              subst h2
              exact getImportCursor_set _ cid l0 now
            · intro h
              exact absurd h (by simp)

/-- C9 as amended: after a completed backfill, latest_id is the greatest
under JavaScript lexicographic string comparison of the prior cursor (if
any) and the newest-message ids of the fetched pages — expressed as the
bumpLatest fold (first conjunct); storing then reading the cursor yields
that id (second conjunct), and a run that observed nothing leaves the
cursor untouched (third conjunct).  With no prior cursor the stored id is
one of the observed page-newest ids and none of them exceeds it (fourth
conjunct).  Lexicographic order agrees with the snowflake chronological
order only for ids of equal digit length, so the stored id need not be the
chronologically greatest observed — see the counterexample. -/
theorem c9_cursor_amended (fetch : Nat → FetchOpts → Except JsErrCode (List PageMsg))
    (s : Db) (cid : String) (gid : Option String) (now : String) (fuel : Nat)
    (s1 : Db) (lf : Option String) (nt : List String) (mc : Nat)
    (heq : importChannel fetch s cid gid now fuel = (s1, .completed lf nt mc)) :
    (lf = nt.foldl bumpLatest (getImportCursor s cid)) ∧
    (∀ l, lf = some l → getImportCursor s1 cid = some l) ∧
    (lf = none → getImportCursor s1 cid = getImportCursor s cid) ∧
    (getImportCursor s cid = none → ∀ l, lf = some l →
      l ∈ nt ∧ ∀ x ∈ nt, jsLt l x = false) := by
  unfold importChannel at heq
  obtain ⟨⟨suf, hsuf, hlf⟩, hcur, hnone⟩ := importLoop_completed_spec fetch cid gid now
    (getImportCursor s cid) fuel 0 s (getImportCursor s cid) none 0 [] s1 lf nt mc heq
  have hnt : nt = suf := by rw [hsuf]; rfl
  subst hnt
  refine ⟨hlf, hcur, ?_, ?_⟩
  · intro h
    unfold getImportCursor
    rw [hnone h]
  · intro hinit l hl
    rw [hinit] at hlf
    rw [hl] at hlf
    obtain ⟨hmem, hmax, _⟩ := foldl_bumpLatest_spec nt none l hlf.symm
    rcases hmem with hin | hcontra
    · exact ⟨hin, hmax⟩
    · cases hcontra

/-- Database whose channel already carries an import cursor at id 99 from
an earlier run. -/
def c9db : Db := setImportCursor demoBase "c1" "99" "t0"

/-- Remote channel content for the counterexample: one new message whose
snowflake id 100 is chronologically after the cursor (100 > 99
numerically) but lexicographically below it as a string. -/
def c9remote : List PageMsg :=
  [{ msg := mkMsg "100" "new message" "2024-01-05T10:00:00", author := none }]

/-- The counterexample backfill run. -/
def c9run : Db × ImportStatus :=
  importChannel (fun _ opts => discordFetch c9remote opts) c9db "c1" (some "g1") "t1" 5

/-- Counterexample to C9: the run completes having stored one message
(id 100, the only id observed, hence the chronologically greatest by the
snowflake ordering), yet the cursor still reads 99 — the code compares ids
with the JavaScript string operator, and "100" < "99" lexicographically,
so the greatest-observed-id claim fails for ids of unequal digit length. -/
theorem c9_cursor_counterexample :
    c9run.2 = ImportStatus.completed (some "99") ["100"] 1 ∧
    getImportCursor c9run.1 "c1" = some "99" ∧
    (c9run.1.messages.map (fun r => r.id) = ["100"]) ∧
    idNum "99" < idNum "100" ∧
    jsLt "100" "99" = true ∧
    (some "99" : Option String) ≠ some "100" := by
  refine ⟨by decide, by decide, by decide, by decide, by decide, by decide⟩

/-- Remote channel content for the amended-claim witness: a fresh channel
with two messages, ids 11 and 12, fetched newest-first in one short
page. -/
def c9wremote : List PageMsg :=
  [{ msg := mkMsg "12" "later" "2024-01-02T10:00:00", author := none },
   { msg := mkMsg "11" "earlier" "2024-01-01T10:00:00", author := none }]

/-- The witness backfill run. -/
def c9wrun : Db × ImportStatus :=
  importChannel (fun _ opts => discordFetch c9wremote opts) demoBase "c1" (some "g1") "t1" 5

/-- Witness for C9's amended theorem: the fresh-channel run stores the
page-newest id 12, the cursor reads back as 12, and 12 is the observed
newest id that no observed id exceeds lexicographically. -/
theorem c9_cursor_amended_witness :
    (importChannel (fun _ opts => discordFetch c9wremote opts) demoBase "c1" (some "g1") "t1" 5 =
      (c9wrun.1, ImportStatus.completed (some "12") ["12"] 2)) ∧
    (some "12" = (["12"] : List String).foldl bumpLatest (getImportCursor demoBase "c1")) ∧
    (getImportCursor c9wrun.1 "c1" = some "12") ∧
    ("12" ∈ (["12"] : List String) ∧ ∀ x ∈ (["12"] : List String), jsLt "12" x = false) := by
  refine ⟨by decide, ?_, ?_, ?_⟩
  · exact (c9_cursor_amended (fun _ opts => discordFetch c9wremote opts) demoBase "c1"
      (some "g1") "t1" 5 c9wrun.1 (some "12") ["12"] 2 (by decide)).1
  · exact (c9_cursor_amended (fun _ opts => discordFetch c9wremote opts) demoBase "c1"
      (some "g1") "t1" 5 c9wrun.1 (some "12") ["12"] 2 (by decide)).2.1 "12" rfl
  · exact (c9_cursor_amended (fun _ opts => discordFetch c9wremote opts) demoBase "c1"
      (some "g1") "t1" 5 c9wrun.1 (some "12") ["12"] 2 (by decide)).2.2.2 (by decide) "12" rfl

/-! ## Claim C2 — shape of the context window -/

/-- Strict string comparison is asymmetric. -/
theorem jsLt_asymm {a b : String} (h : jsLt a b = true) : jsLt b a = false := by
  by_cases hc : jsLt b a = true
  · have := jsLt_trans h hc
    rw [jsLt_irrefl] at this
    cases this
  · exact Bool.not_eq_true _ |>.mp hc

/-- Strictly comparable strings differ. -/
theorem jsLt_ne {a b : String} (h : jsLt a b = true) : a ≠ b := by
  intro hc
  subst hc
  rw [jsLt_irrefl] at h
  cases h

/-- Reflexivity of the non-strict comparison. -/
theorem jsLe_refl (a : String) : jsLe a a = true := by
  unfold jsLe
  simp

/-- Strict implies non-strict. -/
theorem jsLe_of_lt {a b : String} (h : jsLt a b = true) : jsLe a b = true := by
  unfold jsLe
  rw [h]
  rfl

/-- The converse non-strict comparison of strictly ordered strings fails. -/
theorem jsLe_false_of_lt {a b : String} (h : jsLt a b = true) : jsLe b a = false := by
  unfold jsLe
  rw [jsLt_asymm h]
  have hne : b ≠ a := (jsLt_ne h).symm
  simp [hne]

/-- Inserting an element that precedes the whole list puts it in front. -/
theorem insLe_all {α : Type} (le : α → α → Bool) (x : α) (l : List α)
    (h : ∀ y ∈ l, le x y = true) : insLe le x l = x :: l := by
  cases l with
  | nil => rfl
  | cons y ys =>
    unfold insLe
    rw [if_pos (h y (by simp))]

/-- Inserting an element that follows the whole list appends it. -/
theorem insLe_append {α : Type} (le : α → α → Bool) (x : α) (l : List α)
    (h : ∀ y ∈ l, le x y = false) : insLe le x l = l ++ [x] := by
  induction l with
  | nil => rfl
  | cons y ys ih =>
    unfold insLe
    rw [if_neg (by rw [h y (by simp)]; simp), ih (fun z hz => h z (by simp [hz]))]
    rfl

/-- Sorting an already ordered list is the identity. -/
theorem sortByLe_sorted_id {α : Type} (le : α → α → Bool) (l : List α)
    (h : l.Pairwise (fun a b => le a b = true)) : sortByLe le l = l := by
  induction l with
  | nil => rfl
  | cons x xs ih =>
    rw [List.pairwise_cons] at h
    unfold sortByLe
    rw [ih h.2, insLe_all le x xs h.1]

/-- Sorting a list ordered against the comparator reverses it. -/
theorem sortByLe_rev {α : Type} (le : α → α → Bool) (l : List α)
    (h : l.Pairwise (fun a b => le a b = false)) : sortByLe le l = l.reverse := by
  induction l with
  | nil => rfl
  | cons x xs ih =>
    rw [List.pairwise_cons] at h
    unfold sortByLe
    rw [ih h.2, insLe_append le x xs.reverse (fun y hy => h.1 y (List.mem_reverse.mp hy))]
    rw [List.reverse_cons]

/-- Splitting a conjunction of filters. -/
theorem filter_and_split {α : Type} (A B : α → Bool) (l : List α) :
    l.filter (fun a => A a && B a) = (l.filter A).filter B := by
  rw [List.filter_filter]
  apply List.filter_congr
  intro a _
  exact Bool.and_comm (B a) (A a) ▸ rfl

/-- On a strictly ascending list, keeping the elements at or below the
element at index i keeps exactly the first i + 1. -/
theorem sorted_filter_le (ts : List String) (hs : ts.Pairwise (fun a b => jsLt a b = true)) :
    ∀ (i : Nat) (hi : i < ts.length),
      ts.filter (fun x => jsLe x (ts.get ⟨i, hi⟩)) = ts.take (i + 1) := by
  induction ts with
  | nil => intro i hi; exact absurd hi (by simp)
  | cons x rest ih =>
    intro i hi
    rw [List.pairwise_cons] at hs
    cases i with
    | zero =>
      show (x :: rest).filter (fun y => jsLe y x) = List.take 1 (x :: rest)
      rw [List.filter_cons_of_pos (by exact jsLe_refl x)]
      rw [List.filter_eq_nil_iff.mpr (fun y hy => by rw [jsLe_false_of_lt (hs.1 y hy)]; simp)]
      rfl
    | succ j =>
      have hj : j < rest.length := Nat.lt_of_succ_lt_succ hi
      show (x :: rest).filter (fun y => jsLe y (rest.get ⟨j, hj⟩)) = List.take (j + 2) (x :: rest)
      rw [List.filter_cons_of_pos
        (by exact jsLe_of_lt (hs.1 (rest.get ⟨j, hj⟩) (List.get_mem ..)))]
      rw [ih hs.2 j hj]
      rfl

/-- On a strictly ascending list, keeping the elements at or above the
element at index i drops exactly the first i. -/
theorem sorted_filter_ge (ts : List String) (hs : ts.Pairwise (fun a b => jsLt a b = true)) :
    ∀ (i : Nat) (hi : i < ts.length),
      ts.filter (fun x => jsLe (ts.get ⟨i, hi⟩) x) = ts.drop i := by
  induction ts with
  | nil => intro i hi; exact absurd hi (by simp)
  | cons x rest ih =>
    intro i hi
    rw [List.pairwise_cons] at hs
    cases i with
    | zero =>
      show (x :: rest).filter (fun y => jsLe x y) = x :: rest
      rw [List.filter_eq_self.mpr]
      intro y hy
      rcases List.mem_cons.mp hy with rfl | hyr
      · exact jsLe_refl y
      · exact jsLe_of_lt (hs.1 y hyr)
    | succ j =>
      have hj : j < rest.length := Nat.lt_of_succ_lt_succ hi
      show (x :: rest).filter (fun y => jsLe (rest.get ⟨j, hj⟩) y) = List.drop j rest
      rw [List.filter_cons_of_neg
        (by rw [jsLe_false_of_lt (hs.1 (rest.get ⟨j, hj⟩) (List.get_mem ..))]; simp)]
      exact ih hs.2 j hj

/-- Projecting created_at commutes with filtering on it (lower bound). -/
theorem rows_filter_le_map (l : List MsgRow) (t : Option String) :
    (l.filter (fun r => sqlLeOpt r.created_at t)).map (fun r => r.created_at) =
      (l.map (fun r => r.created_at)).filter (fun o => sqlLeOpt o t) := by
  induction l with
  | nil => rfl
  | cons r rest ih =>
    by_cases h : sqlLeOpt r.created_at t = true <;>
      simp [List.filter_cons, List.map_cons, h, ih]

/-- Projecting created_at commutes with filtering on it (upper bound). -/
theorem rows_filter_ge_map (l : List MsgRow) (t : Option String) :
    (l.filter (fun r => sqlLeOpt t r.created_at)).map (fun r => r.created_at) =
      (l.map (fun r => r.created_at)).filter (fun o => sqlLeOpt t o) := by
  induction l with
  | nil => rfl
  | cons r rest ih =>
    by_cases h : sqlLeOpt t r.created_at = true <;>
      simp [List.filter_cons, List.map_cons, h, ih]

/-- Filtering an all-some list against a some bound (lower side). -/
theorem map_some_filter_le (ts : List String) (t : String) :
    (ts.map some).filter (fun o => sqlLeOpt o (some t)) =
      (ts.filter (fun x => jsLe x t)).map some := by
  induction ts with
  | nil => rfl
  | cons x rest ih =>
    have hcoe : sqlLeOpt (some x) (some t) = jsLe x t := rfl
    by_cases h : jsLe x t = true <;>
      simp [List.filter_cons, List.map_cons, hcoe, h, ih]

/-- Filtering an all-some list against a some bound (upper side). -/
theorem map_some_filter_ge (ts : List String) (t : String) :
    (ts.map some).filter (fun o => sqlLeOpt (some t) o) =
      (ts.filter (fun x => jsLe t x)).map some := by
  induction ts with
  | nil => rfl
  | cons x rest ih =>
    have hcoe : sqlLeOpt (some t) (some x) = jsLe t x := rfl
    by_cases h : jsLe t x = true <;>
      simp [List.filter_cons, List.map_cons, hcoe, h, ih]

/-- Value of the lower boundary subquery on a channel whose stored rows
carry exactly the strictly ascending timestamps ts: walking half steps
down from index i lands on index i - half. -/
theorem ctxLower_eq (s : Db) (c : String) (ts : List String)
    (hts : (s.messages.filter (fun r => r.channel_id == c)).map (fun r => r.created_at) = ts.map some)
    (hsort : ts.Pairwise (fun a b => jsLt a b = true))
    (i half : Nat) (hi : i < ts.length) (hhalf : half ≤ i) :
    ctxLower s c (some (ts.get ⟨i, hi⟩)) half = some (ts.get ⟨i - half, by omega⟩) := by
  unfold ctxLower
  rw [filter_and_split (fun r : MsgRow => r.channel_id == c)
    (fun r => sqlLeOpt r.created_at (some (ts.get ⟨i, hi⟩))) s.messages]
  rw [rows_filter_le_map, hts, map_some_filter_le]
  rw [show (fun x => jsLe x (ts.get ⟨i, hi⟩)) = (fun x => jsLe x (ts.get ⟨i, hi⟩)) from rfl]
  rw [sorted_filter_le ts hsort i hi]
  have hpair : ((ts.take (i + 1)).map some).Pairwise
      (fun a b : Option String => nullsLastGe a b = false) := by
    apply List.pairwise_map.mpr
    apply List.Pairwise.imp ?_ (List.Pairwise.sublist (List.take_sublist (i + 1) ts) hsort)
    intro a b hab
    show nullsFirstLe (some b) (some a) = false
    show jsLe b a = false
    exact jsLe_false_of_lt hab
  rw [sortByLe_rev _ _ hpair]
  have hlen : ((ts.take (i + 1)).map some).length = i + 1 := by
    rw [List.length_map, List.length_take]
    omega
  rw [List.getElem?_reverse (by rw [hlen]; omega)]
  rw [hlen]
  rw [List.getElem?_map]
  rw [show i + 1 - 1 - half = i - half by omega]
  rw [List.getElem?_take_of_lt (by omega)]
  rw [List.getElem?_eq_getElem (by omega : i - half < ts.length)]
  rfl

/-- Value of the upper boundary subquery: walking half steps up from
index i lands on index i + half. -/
theorem ctxUpper_eq (s : Db) (c : String) (ts : List String)
    (hts : (s.messages.filter (fun r => r.channel_id == c)).map (fun r => r.created_at) = ts.map some)
    (hsort : ts.Pairwise (fun a b => jsLt a b = true))
    (i half : Nat) (hi : i < ts.length) (hhalf : i + half < ts.length) :
    ctxUpper s c (some (ts.get ⟨i, hi⟩)) half = some (ts.get ⟨i + half, hhalf⟩) := by
  unfold ctxUpper
  rw [filter_and_split (fun r : MsgRow => r.channel_id == c)
    (fun r => sqlLeOpt (some (ts.get ⟨i, hi⟩)) r.created_at) s.messages]
  rw [rows_filter_ge_map, hts, map_some_filter_ge]
  rw [sorted_filter_ge ts hsort i hi]
  have hpair : ((ts.drop i).map some).Pairwise
      (fun a b : Option String => nullsFirstLe a b = true) := by
    apply List.pairwise_map.mpr
    apply List.Pairwise.imp ?_ (List.Pairwise.sublist (List.drop_sublist i ts) hsort)
    intro a b hab
    show jsLe a b = true
    exact jsLe_of_lt hab
  rw [sortByLe_sorted_id _ _ hpair]
  rw [List.getElem?_map, List.getElem?_drop]
  rw [List.getElem?_eq_getElem hhalf]
  rfl

/-- On a strictly ascending list, the rows between the values at indices i
and j (inclusive) are the slice from i through j. -/
theorem sorted_filter_between (ts : List String)
    (hsort : ts.Pairwise (fun a b => jsLt a b = true))
    (i j : Nat) (hi : i < ts.length) (hj : j < ts.length) (hij : i ≤ j) :
    ts.filter (fun x => jsLe (ts.get ⟨i, hi⟩) x && jsLe x (ts.get ⟨j, hj⟩)) =
      (ts.drop i).take (j - i + 1) := by
  rw [filter_and_split (fun x => jsLe (ts.get ⟨i, hi⟩) x) (fun x => jsLe x (ts.get ⟨j, hj⟩)) ts]
  rw [sorted_filter_ge ts hsort i hi]
  have hdsort : (ts.drop i).Pairwise (fun a b => jsLt a b = true) :=
    List.Pairwise.sublist (List.drop_sublist i ts) hsort
  have hji : j - i < (ts.drop i).length := by
    rw [List.length_drop]
    omega
  have hkey : (ts.drop i).get ⟨j - i, hji⟩ = ts.get ⟨j, hj⟩ := by
    show (ts.drop i)[j - i] = ts[j]
    rw [List.getElem_drop]
    congr 1
    omega
  rw [← hkey]
  exact sorted_filter_le (ts.drop i) hdsort (j - i) hji

/-- C2 as amended: for a channel holding 21 messages at strictly
increasing timestamps t1..t21 (the channel's stored rows carry exactly
those timestamps, in order), context with windowSize 10 and target at t11
returns the messages at t6..t16 — floor(10/2) = 5 strictly before the
target, the target, and 5 strictly after, 11 rows in total, because both
BETWEEN bounds are inclusive of the rows at OFFSET 5 on each side — in
chronological order; and with target at t2 it returns the empty list (the
lower subquery has no row at OFFSET 5), not a partial window backfilled
from the other side. -/
theorem c2_context_window_amended (s : Db) (c m11 : String) (ts : List String) (tr : MsgRow)
    (hts : (s.messages.filter (fun r => r.channel_id == c)).map (fun r => r.created_at) = ts.map some)
    (hsort : ts.Pairwise (fun a b => jsLt a b = true))
    (hlen : ts.length = 21)
    (hfind : s.messages.find? (fun r => r.id == m11) = some tr)
    (htr : tr.created_at = ts[10]?) :
    ((getContext s c m11 10).map (fun r => r.created_at) = ((ts.drop 5).take 11).map some) ∧
    (∀ (m2 : String) (tr2 : MsgRow), s.messages.find? (fun r => r.id == m2) = some tr2 →
      tr2.created_at = ts[1]? → getContext s c m2 10 = []) := by
  have h10lt : 10 < ts.length := by omega
  have h5lt : 5 < ts.length := by omega
  have h15lt : 15 < ts.length := by omega
  constructor
  · rw [getContext_of_found s c m11 10 tr hfind]
    have hhalf : (10 : Nat) / 2 = 5 := rfl
    rw [hhalf]
    have htr' : tr.created_at = some (ts.get ⟨10, h10lt⟩) := by
      rw [htr, List.getElem?_eq_getElem h10lt]
      rfl
    rw [htr']
    rw [ctxLower_eq s c ts hts hsort 10 5 h10lt (by omega)]
    rw [ctxUpper_eq s c ts hts hsort 10 5 h10lt (by omega)]
    have hget5 : ts.get ⟨10 - 5, by omega⟩ = ts.get ⟨5, h5lt⟩ := rfl
    have hget15 : ts.get ⟨10 + 5, by omega⟩ = ts.get ⟨15, h15lt⟩ := rfl
    rw [hget5, hget15]
    rw [filter_and_split
      (fun r : MsgRow => r.channel_id == c && sqlLeOpt (some (ts.get ⟨5, h5lt⟩)) r.created_at)
      (fun r => sqlLeOpt r.created_at (some (ts.get ⟨15, h15lt⟩))) s.messages]
    rw [filter_and_split (fun r : MsgRow => r.channel_id == c)
      (fun r => sqlLeOpt (some (ts.get ⟨5, h5lt⟩)) r.created_at) s.messages]
    have hmapP : List.Pairwise (fun (o1 o2 : Option String) => nullsFirstLe o1 o2 = true)
        ((s.messages.filter (fun r => r.channel_id == c)).map (fun r => r.created_at)) := by
      rw [hts]
      exact List.pairwise_map.mpr (hsort.imp (fun hab => jsLe_of_lt hab))
    have hrowsP : (s.messages.filter (fun r => r.channel_id == c)).Pairwise
        (fun r1 r2 => nullsFirstLe r1.created_at r2.created_at = true) :=
      List.pairwise_map.mp hmapP
    rw [sortByLe_sorted_id _ _ ((hrowsP.filter _).filter _)]
    rw [rows_filter_le_map, rows_filter_ge_map, hts, map_some_filter_ge, map_some_filter_le]
    rw [← filter_and_split (fun x => jsLe (ts.get ⟨5, h5lt⟩) x)
      (fun x => jsLe x (ts.get ⟨15, h15lt⟩)) ts]
    rw [sorted_filter_between ts hsort 5 15 h5lt h15lt (by omega)]
  · intro m2 tr2 hfind2 htr2
    apply getContext_empty_of_side_short s c m2 10 tr2 hfind2
    left
    have h1lt : 1 < ts.length := by omega
    have htr2' : tr2.created_at = some (ts.get ⟨1, h1lt⟩) := by
      rw [htr2, List.getElem?_eq_getElem h1lt]
      rfl
    rw [htr2']
    rw [filter_and_split (fun r : MsgRow => r.channel_id == c)
      (fun r => sqlLeOpt r.created_at (some (ts.get ⟨1, h1lt⟩))) s.messages]
    have hcount : ((s.messages.filter (fun r => r.channel_id == c)).filter
        (fun r => sqlLeOpt r.created_at (some (ts.get ⟨1, h1lt⟩)))).length = 2 := by
      have hmaplen := List.length_map
        ((s.messages.filter (fun r => r.channel_id == c)).filter
          (fun r => sqlLeOpt r.created_at (some (ts.get ⟨1, h1lt⟩))))
        (fun r => r.created_at)
      rw [← hmaplen]
      rw [rows_filter_le_map, hts, map_some_filter_le, sorted_filter_le ts hsort 1 h1lt]
      rw [List.length_map, List.length_take]
      omega
    rw [hcount]
    omega

/-- The 21 strictly increasing timestamps of the counterexample channel;
each doubles as the message id. -/
def c2stamps : List String :=
  ["t01", "t02", "t03", "t04", "t05", "t06", "t07", "t08", "t09", "t10",
   "t11", "t12", "t13", "t14", "t15", "t16", "t17", "t18", "t19", "t20", "t21"]

/-- Channel c1 holding the 21 messages in chronological insertion order. -/
def c2db : Db :=
  c2stamps.foldl (fun acc st => upsertMessage acc (mkMsg st ("message at " ++ st) st) "t0") demoBase

/-- Counterexample to C2: with 21 messages at t1..t21 and target t11,
windowSize 10 returns the messages at t6..t16 — eleven rows, both
boundary rows included — not the ten rows t6..t15 the claim states; and
with target t2 the result is empty (zero rows, which the code produces
instead of a one-sided partial window). -/
theorem c2_context_counterexample :
    ((getContext c2db "c1" "t11" 10).map (fun r => r.created_at) =
      ["t06", "t07", "t08", "t09", "t10", "t11", "t12", "t13", "t14", "t15", "t16"].map some) ∧
    ((getContext c2db "c1" "t11" 10).length = 11) ∧
    ¬ ((getContext c2db "c1" "t11" 10).map (fun r => r.created_at) =
      ["t06", "t07", "t08", "t09", "t10", "t11", "t12", "t13", "t14", "t15"].map some) ∧
    (getContext c2db "c1" "t02" 10 = []) := by
  refine ⟨by decide, by decide, by decide, by decide⟩

/-- Witness for C2's amended theorem: the concrete 21-message channel
satisfies its hypotheses, and the window at t11 is the t6..t16 slice
while the window at t2 is empty. -/
theorem c2_context_window_amended_witness :
    ((c2db.messages.filter (fun r => r.channel_id == ("c1" : String))).map (fun r => r.created_at) =
      c2stamps.map some) ∧
    ((getContext c2db "c1" "t11" 10).map (fun r => r.created_at) =
      ((c2stamps.drop 5).take 11).map some) ∧
    (getContext c2db "c1" "t02" 10 = []) := by
  refine ⟨by decide, ?_, ?_⟩
  · exact (c2_context_window_amended c2db "c1" "t11" c2stamps
      (c2db.messages.get ⟨10, by decide⟩) (by decide) (by decide) (by decide)
      (by decide) (by decide)).1
  · exact (c2_context_window_amended c2db "c1" "t11" c2stamps
      (c2db.messages.get ⟨10, by decide⟩) (by decide) (by decide) (by decide)
      (by decide) (by decide)).2 "t02" (c2db.messages.get ⟨1, by decide⟩)
      (by decide) (by decide)
